import Mathlib

/-!
Formal model and verification of the MyList watchlist service.

This file gives a shallow embedding of the list-management engine of the
MyList feature: the document-store repository (`MyListRepository`), the
content and user lookups (`ContentRepository`, `UserRepository`), the cache
layer (`CacheService` over the in-memory backend in `config/cache`), and the
business engine (`MyListService`).  Timestamps are naturals, documents are
records, and both the list store and the cache are functions from keys to
optional values.  Fallible operations return `Except` values; errors thrown
and caught inside the cache layer are modelled by explicit failure flags.
-/

namespace MyListSpec

/-- `ContentType` enumeration from `common.types.ts`: `'Movie' | 'TVShow'`. -/
inductive ContentType where
  | Movie
  | TVShow
deriving DecidableEq, Repr

/-- `MyListItem` from `myList.types.ts`: one entry of a user's list. -/
structure MyListItem where
  contentId : String
  contentType : ContentType
  addedAt : Nat
deriving DecidableEq, Repr

/-- `MyList` aggregate document (`MyList.model` schema): one document per
user, holding the items array plus the `timestamps: true` lifecycle fields. -/
structure MyListDoc where
  userId : String
  items : List MyListItem
  createdAt : Nat
  updatedAt : Nat
deriving DecidableEq, Repr

/-- The `mylists` collection: at most one document per `userId` (the schema
declares a unique index on `userId`). -/
abbrev ListStore := String → Option MyListDoc

/-- Pointwise update of the store at one `userId`. -/
def storeSet (st : ListStore) (userId : String) (doc : MyListDoc) : ListStore :=
  fun u => if u = userId then some doc else st u

/-- Episode record nested in `TVShow` (`entities.ts`). -/
structure Episode where
  episodeNumber : Nat
  seasonNumber : Nat
  releaseDate : Nat
  director : String
  actors : List String
deriving DecidableEq, Repr

/-- `Movie` entity (`entities.ts`). -/
structure Movie where
  id : String
  title : String
  description : String
  genres : List String
  releaseDate : Nat
  director : String
  actors : List String
deriving DecidableEq, Repr

/-- `TVShow` entity (`entities.ts`). -/
structure TVShow where
  id : String
  title : String
  description : String
  genres : List String
  episodes : List Episode
deriving DecidableEq, Repr

/-- `Content = Movie | TVShow` union (`entities.ts`). -/
inductive Content where
  | movie : Movie → Content
  | tvshow : TVShow → Content
deriving DecidableEq, Repr

def Content.id : Content → String
  | .movie m => m.id
  | .tvshow t => t.id

def Content.title : Content → String
  | .movie m => m.title
  | .tvshow t => t.title

def Content.description : Content → String
  | .movie m => m.description
  | .tvshow t => t.description

def Content.genres : Content → List String
  | .movie m => m.genres
  | .tvshow t => t.genres

/-- Type guard `isMovie` from `entities.ts` (`'director' in content` and not
`'episodes' in content`): exactly the `Movie` branch of the union. -/
def isMovie : Content → Bool
  | .movie _ => true
  | .tvshow _ => false

/-- The two catalog collections behind `ContentRepository`: `id` is the
lookup key of `MovieModel` and `TVShowModel`. -/
structure ContentDB where
  movies : String → Option Movie
  tvshows : String → Option TVShow

/-- External collaborators of the engine: the user directory
(`UserRepository.exists`) and the content catalog. -/
structure Env where
  userExists : String → Bool
  db : ContentDB

/-- `ContentRepository.contentExists`: `countDocuments {id} > 0` on the
collection selected by `contentType`. -/
def contentExists (db : ContentDB) (contentId : String) (contentType : ContentType) : Bool :=
  match contentType with
  | .Movie => (db.movies contentId).isSome
  | .TVShow => (db.tvshows contentId).isSome

/-- The `Map` built by `ContentRepository.findContentsByIds`: movies are
inserted first, then TV shows, later insertions overwriting earlier ones. -/
def buildContentMap (cs : List Content) : String → Option Content :=
  cs.foldl (fun m c => fun i => if i = c.id then some c else m i) (fun _ => none)

/-- `ContentRepository.findContentsByIds`: split requests by type, batch-fetch
each collection (`find {id: {$in: ids}}`; fetching an id twice still yields a
single document, and re-inserting the same document leaves the map
unchanged), then walk the requests in order keeping those whose `contentId`
resolves in the map. -/
def findContentsByIds (db : ContentDB) (reqs : List (String × ContentType)) : List Content :=
  let movieIds := (reqs.filter (fun r => r.2 == ContentType.Movie)).map Prod.fst
  let tvShowIds := (reqs.filter (fun r => r.2 == ContentType.TVShow)).map Prod.fst
  let movieDocs := movieIds.filterMap db.movies
  let tvShowDocs := tvShowIds.filterMap db.tvshows
  let contentMap := buildContentMap (movieDocs.map Content.movie ++ tvShowDocs.map Content.tvshow)
  reqs.filterMap (fun r => contentMap r.1)

/-- `MyListRepository.itemExists`: `findOne {userId, items.contentId}` is
non-null iff the user's document exists and has an item with that id. -/
def itemExists (st : ListStore) (userId contentId : String) : Bool :=
  match st userId with
  | none => false
  | some doc => doc.items.any (fun it => it.contentId == contentId)

/-- Outcome of `MyListRepository.addItem`: either the updated store, or the
untyped `Error('Item already exists in list')` the repository throws. -/
inductive RepoAddResult where
  | ok : ListStore → RepoAddResult
  | itemAlreadyExists : RepoAddResult

/-- The write `MyListRepository.addItem` *intends*: a quick `itemExists`
pre-check (throwing the untyped duplicate error), then the conditional
write `findOneAndUpdate {userId, items.contentId: {$ne: contentId}}` with
`upsert: true`, pushing onto the matched document or inserting a fresh one.
This is an idealisation: the update document as written pairs `$push` and
`$setOnInsert` on the path `items`, which MongoDB rejects on every call, so
the write as the database executes it always throws — see `addItemMongo`
below.  `addItem` is kept for the statements whose truth does not depend on
that distinction (an add that errors performs no write either way). -/
def addItem (st : ListStore) (userId : String) (item : MyListItem) (now : Nat) : RepoAddResult :=
  if itemExists st userId item.contentId then
    .itemAlreadyExists
  else
    match st userId with
    | some doc =>
        .ok (storeSet st userId { doc with items := doc.items ++ [item], updatedAt := now })
    | none =>
        .ok (storeSet st userId
          { userId := userId, items := [item], createdAt := now, updatedAt := now })

/-- `MyListRepository.removeItem`: `findOneAndUpdate {userId}` applying
`$pull {items: {contentId}}` and `$set {updatedAt}` with `new: true`.
A missing document yields `false` with no write.  Otherwise the update is
applied and the returned flag is `!itemExists` computed on the *post-update*
document (`result.items.some(...)` after the `$pull`). -/
def removeItem (st : ListStore) (userId contentId : String) (now : Nat) : Bool × ListStore :=
  match st userId with
  | none => (false, st)
  | some doc =>
      let newItems := doc.items.filter (fun it => !(it.contentId == contentId))
      let st2 := storeSet st userId { doc with items := newItems, updatedAt := now }
      let itemStillExists := newItems.any (fun it => it.contentId == contentId)
      (!itemStillExists, st2)

/-- `Math.ceil(total / limit)` on naturals (used with `limit ≥ 1`). -/
def ceilDiv (a b : Nat) : Nat := (a + b - 1) / b

/-- `PaginationMeta` from `common.types.ts`. -/
structure PaginationMeta where
  page : Nat
  limit : Nat
  total : Nat
  totalPages : Nat
  hasNextPage : Bool
  hasPreviousPage : Bool
deriving DecidableEq, Repr

/-- Result shape of `MyListRepository.getItemsPaginated`. -/
structure PaginatedMyListResult where
  items : List MyListItem
  pagination : PaginationMeta
deriving DecidableEq, Repr

/-- Comparator of `getItemsPaginated`'s sort:
`(a, b) => b.addedAt - a.addedAt`, i.e. `addedAt` descending. -/
def addedAtDescLe (a b : MyListItem) : Bool := decide (b.addedAt ≤ a.addedAt)

/-- Stable insertion under the descending comparator: the new element goes
in front of the first element it compares less-than-or-equal to, so an
element never moves past an equal one. -/
def insertDesc (x : MyListItem) : List MyListItem → List MyListItem
  | [] => [x]
  | y :: ys => if addedAtDescLe x y then x :: y :: ys else y :: insertDesc x ys

/-- The stable descending sort performed by `sortedItems` in
`getItemsPaginated`.  `Array.prototype.sort` is required to be stable, and a
stable sort's output is uniquely determined by the comparator and the input
order; this structurally recursive insertion sort computes exactly that
output (sortedness and stability are proved below). -/
def sortDesc : List MyListItem → List MyListItem
  | [] => []
  | x :: xs => insertDesc x (sortDesc xs)

/-- `MyListRepository.getItemsPaginated`: empty result (`total = 0`,
`totalPages = 0`, both flags false) when the user has no document; otherwise
sort the items by `addedAt` descending with a stable sort, slice
`[skip, skip + limit)`, and compute the metadata over the full count. -/
def getItemsPaginated (st : ListStore) (userId : String) (page limit : Nat) :
    PaginatedMyListResult :=
  match st userId with
  | none =>
      { items := []
        pagination :=
          { page := page, limit := limit, total := 0, totalPages := 0
            hasNextPage := false, hasPreviousPage := false } }
  | some doc =>
      let items := doc.items
      let total := items.length
      let totalPages := ceilDiv total limit
      let skip := (page - 1) * limit
      let sortedItems := sortDesc items
      let paginatedItems := (sortedItems.drop skip).take limit
      { items := paginatedItems
        pagination :=
          { page := page, limit := limit, total := total, totalPages := totalPages
            hasNextPage := decide (page < totalPages)
            hasPreviousPage := decide (1 < page) } }

/-! ## Cache layer

`CacheService` builds string keys by template interpolation and delegates to
the backend in `config/cache`.  The in-memory backend stores a map from key
strings to values; `deletePattern` compiles the pattern with `*` replaced by
`.*` and drops every key the resulting *unanchored* regular expression
matches somewhere. -/

/-- One decimal digit character (`'0'` to `'9'`). -/
def digitChr (d : Nat) : Char := Char.ofNat (48 + d)

/-- Decimal digit characters of `n`, most significant first, computed with a
structural fuel argument; the fuel always strictly exceeds `n`, which
suffices since a number's decimal length never exceeds the number plus
one. -/
def natCharsAux : Nat → Nat → List Char
  | 0, _ => []
  | fuel + 1, n =>
      if n < 10 then [digitChr n]
      else natCharsAux fuel (n / 10) ++ [digitChr (n % 10)]

/-- Decimal digit list of a natural number, most significant first: the
character sequence JavaScript template interpolation produces for a
nonnegative integer. -/
def natChars (n : Nat) : List Char := natCharsAux (n + 1) n

/-- Decimal rendering of a natural, as interpolated into cache keys. -/
def natToString (n : Nat) : String := ⟨natChars n⟩

/-- The string form of a `ContentType` value (its TypeScript literal). -/
def contentTypeName : ContentType → String
  | .Movie => "Movie"
  | .TVShow => "TVShow"

/-- `CacheService.getListCacheKey`:
`mylist:<userId>:<page>:<limit>` with `:<contentType>` appended when a
filter is present. -/
def getListCacheKey (userId : String) (page limit : Nat) (contentType : Option ContentType) :
    String :=
  let baseKey := "mylist:" ++ userId ++ ":" ++ natToString page ++ ":" ++ natToString limit
  match contentType with
  | some ct => baseKey ++ ":" ++ contentTypeName ct
  | none => baseKey

/-- `CacheService.getUserCachePattern`: `mylist:<userId>:*`. -/
def getUserCachePattern (userId : String) : String :=
  "mylist:" ++ userId ++ ":*"

/-- Response item shape (`MyListItemWithDetails` in `myList.types.ts`);
the type-specific fields are optional properties. -/
structure MyListItemWithDetails where
  contentId : String
  contentType : ContentType
  title : String
  description : String
  genres : List String
  addedAt : Nat
  releaseDate : Option Nat
  director : Option String
  actors : Option (List String)
  episodeCount : Option Nat
deriving DecidableEq, Repr

/-- `PaginatedMyListResponse` from `myList.types.ts`. -/
structure PaginatedMyListResponse where
  data : List MyListItemWithDetails
  pagination : PaginationMeta
deriving DecidableEq, Repr

/-- The backing cache map of the in-memory backend. -/
abbrev Cache := String → Option PaginatedMyListResponse

def emptyCache : Cache := fun _ => none

/-- Backend `set`: store the value under the key. -/
def cacheSet (c : Cache) (k : String) (v : PaginatedMyListResponse) : Cache :=
  fun k2 => if k2 = k then some v else c k2

/-- The JavaScript regular-expression syntax characters: the characters
that carry special meaning in a pattern source. -/
def isRegexSyntaxChar (c : Char) : Bool :=
  c = '.' || c = '*' || c = '+' || c = '?' || c = '(' || c = ')' ||
  c = '[' || c = ']' || c = '\x7b' || c = '\x7d' ||
  c = '|' || c = '^' || c = '$' || c = '\\'

/-- A string is regex-literal when none of its characters is a regex syntax
character, so that interpolating it verbatim into a pattern source treats it
as a literal.  The service interpolates the *raw* `userId` into its
invalidation pattern, so this property of the userId decides whether the
pattern means what the key-building code intends. -/
def regexSafe (u : String) : Bool := u.data.all (fun c => !(isRegexSyntaxChar c))

/-- `pattern.replace(/\x2a/g, '.*')`: every star in the pattern source —
wherever it occurs — is replaced by dot-star. -/
def replaceStarChars : List Char → List Char
  | [] => []
  | c :: rest =>
      if c = '*' then '.' :: '*' :: replaceStarChars rest
      else c :: replaceStarChars rest

/-- A single-character regex atom: a literal character, or the wildcard
dot.  (`anyChar` models `.`; JavaScript's `.` excludes line terminators,
but in the patterns reasoned about below the dot only ever occurs in a
trailing `.\x2a`, where that difference cannot change whether `test`
succeeds, since the tail may also match the empty string.) -/
inductive RAtom where
  | lit (c : Char)
  | anyChar
deriving DecidableEq, Repr

/-- One sequential piece of a compiled pattern: an atom, alone or under one
of the quantifiers `\x2a`, `+`, `?`. -/
inductive RPiece where
  | once (a : RAtom)
  | star (a : RAtom)
  | plus (a : RAtom)
  | opt (a : RAtom)
deriving DecidableEq, Repr

/-- A literal-character piece. -/
def mkLitPiece (c : Char) : RPiece := RPiece.once (RAtom.lit c)

/-- The `new RegExp` compiler, for the dialect reachable from this
service's patterns: sequences of literal characters and dots, each
optionally under a `\x2a`/`+`/`?` quantifier (a lazy `?` modifier after a
quantifier is accepted, and is equivalent for `test`, which only asks
whether *some* match exists).  `tag` tracks what the previous character
left behind: `0` nothing quantifiable yet, `1` a bare atom, `2` a greedy
quantifier (a lazy `?` may follow), `3` lazy-locked.  `none` models the
constructor throwing `SyntaxError` — a quantifier with nothing to repeat,
a quantifier stacked on a quantifier, or a syntax character outside the
dialect (such as an unterminated `[` class, which the service's own
failing patterns produce). -/
def parseRx : List Char → List RPiece → Nat → Option (List RPiece)
  | [], acc, _ => some acc.reverse
  | c :: rest, acc, tag =>
      if c = '.' then parseRx rest (RPiece.once RAtom.anyChar :: acc) 1
      else if c = '*' then
        match tag, acc with
        | 1, RPiece.once a :: acc2 => parseRx rest (RPiece.star a :: acc2) 2
        | _, _ => none
      else if c = '+' then
        match tag, acc with
        | 1, RPiece.once a :: acc2 => parseRx rest (RPiece.plus a :: acc2) 2
        | _, _ => none
      else if c = '?' then
        match tag, acc with
        | 1, RPiece.once a :: acc2 => parseRx rest (RPiece.opt a :: acc2) 2
        | 2, _ => parseRx rest acc 3
        | _, _ => none
      else if isRegexSyntaxChar c then none
      else parseRx rest (RPiece.once (RAtom.lit c) :: acc) 1

/-- Whether one atom matches one character. -/
def atomMatch : RAtom → Char → Bool
  | RAtom.lit c, d => c = d
  | RAtom.anyChar, _ => true

/-- Backtracking search: does some *prefix* of the characters match the
piece sequence?  Structural on a fuel argument; every recursive call
consumes a piece or a character, so any fuel exceeding the piece count plus
the character count is enough. -/
def matchPre : Nat → List RPiece → List Char → Bool
  | 0, _, _ => false
  | _ + 1, [], _ => true
  | fuel + 1, RPiece.once a :: rs, cs =>
      match cs with
      | [] => false
      | ch :: cs2 => atomMatch a ch && matchPre fuel rs cs2
  | fuel + 1, RPiece.opt a :: rs, cs =>
      matchPre fuel rs cs ||
        (match cs with
         | [] => false
         | ch :: cs2 => atomMatch a ch && matchPre fuel rs cs2)
  | fuel + 1, RPiece.star a :: rs, cs =>
      matchPre fuel rs cs ||
        (match cs with
         | [] => false
         | ch :: cs2 => atomMatch a ch && matchPre fuel (RPiece.star a :: rs) cs2)
  | fuel + 1, RPiece.plus a :: rs, cs =>
      match cs with
      | [] => false
      | ch :: cs2 => atomMatch a ch && matchPre fuel (RPiece.star a :: rs) cs2

/-- All suffixes of a character list, longest first. -/
def suffixesOf : List Char → List (List Char)
  | [] => [[]]
  | c :: cs => (c :: cs) :: suffixesOf cs

/-- `regex.test(key)`: the *unanchored* search — the regex matches some
substring of the key, i.e. some prefix of some suffix. -/
def rxTest (r : List RPiece) (k : List Char) : Bool :=
  (suffixesOf k).any (fun s => matchPre (r.length + k.length + 1) r s)

/-- Backend `deletePattern` of `InMemoryCacheService`: it compiles
`new RegExp(pattern.replace(/\x2a/g, '.*'))` over the raw pattern string
and drops every key the unanchored `test` matches somewhere.  A pattern the
constructor rejects throws out of `deletePattern`; the only caller,
`CacheService.invalidateUserList`, catches that error, so the invalidation
is lost — the `none` branch leaves the cache unchanged. -/
def deletePattern (c : Cache) (pat : String) : Cache :=
  match parseRx (replaceStarChars pat.data) [] 0 with
  | none => c
  | some r => fun k => if rxTest r k.data then none else c k

/-- `CacheService.getCachedList`, with `fail` modelling a backend `get` that
throws: the error is caught and absorbed into a `null` (miss) result. -/
def getCachedList (fail : Bool) (c : Cache) (userId : String) (page limit : Nat)
    (contentType : Option ContentType) : Option PaginatedMyListResponse :=
  if fail then none
  else c (getListCacheKey userId page limit contentType)

/-- `CacheService.setCachedList`, with `fail` modelling a backend `set` that
throws: the error is caught and the write is lost. -/
def setCachedList (fail : Bool) (c : Cache) (userId : String) (page limit : Nat)
    (data : PaginatedMyListResponse) (contentType : Option ContentType) : Cache :=
  if fail then c
  else cacheSet c (getListCacheKey userId page limit contentType) data

/-- `CacheService.invalidateUserList`, with `fail` modelling a backend
`deletePattern` that throws: the error is caught and the invalidation is
lost. -/
def invalidateUserList (fail : Bool) (c : Cache) (userId : String) : Cache :=
  if fail then c
  else deletePattern c (getUserCachePattern userId)

/-! ## Business engine (`MyListService`) -/

/-- The typed error classes of `MyListService`, plus `unknown` for untyped
errors the service merely logs and re-throws. -/
inductive MyListError where
  | userNotFound (userId : String)
  | contentNotFound (contentId : String) (contentType : ContentType)
  | duplicateItem (contentId : String)
  | itemNotFound (contentId : String)
  | unknown (msg : String)
deriving DecidableEq, Repr

/-- Calls the engine makes on its collaborators, in program order. -/
inductive EngineEvent where
  | userLookup (userId : String)
  | contentLookup (contentId : String) (contentType : ContentType)
  | duplicateCheck (userId contentId : String)
  | storeAddItem (userId contentId : String)
  | storeRemoveItem (userId contentId : String)
  | cacheInvalidate (userId : String)
deriving DecidableEq, Repr

/-- Outcome of a mutating service call: business result, post states, and
the trace of collaborator calls performed. -/
structure MutOutcome where
  result : Except MyListError Unit
  store : ListStore
  cache : Cache
  trace : List EngineEvent

/-- `MyListService.addToMyList` over the *intended* write (`addItem`
above): user lookup, content lookup, duplicate pre-check, repository
write, cache invalidation — each failure point throwing its typed error,
except the repository's untyped duplicate error, which the catch block
re-throws unchanged.  `invFail` models a cache invalidation whose backend
throws (absorbed inside `CacheService`).  The service over the write as
the database executes it is `addToMyListReal` below. -/
def addToMyList (env : Env) (st : ListStore) (c : Cache) (userId contentId : String)
    (contentType : ContentType) (now : Nat) (invFail : Bool) : MutOutcome :=
  if !(env.userExists userId) then
    { result := .error (.userNotFound userId), store := st, cache := c
      trace := [.userLookup userId] }
  else if !(contentExists env.db contentId contentType) then
    { result := .error (.contentNotFound contentId contentType), store := st, cache := c
      trace := [.userLookup userId, .contentLookup contentId contentType] }
  else if itemExists st userId contentId then
    { result := .error (.duplicateItem contentId), store := st, cache := c
      trace := [.userLookup userId, .contentLookup contentId contentType,
                .duplicateCheck userId contentId] }
  else
    match addItem st userId { contentId := contentId, contentType := contentType, addedAt := now } now with
    | .itemAlreadyExists =>
        { result := .error (.unknown "Item already exists in list"), store := st, cache := c
          trace := [.userLookup userId, .contentLookup contentId contentType,
                    .duplicateCheck userId contentId, .storeAddItem userId contentId] }
    | .ok st2 =>
        { result := .ok (), store := st2, cache := invalidateUserList invFail c userId
          trace := [.userLookup userId, .contentLookup contentId contentType,
                    .duplicateCheck userId contentId, .storeAddItem userId contentId,
                    .cacheInvalidate userId] }

/-- `MyListService.removeFromMyList`: a single repository `removeItem` call
(no user or content lookup), throwing `ItemNotFoundError` when the
repository reports nothing was removed, else invalidating the cache. -/
def removeFromMyList (st : ListStore) (c : Cache) (userId contentId : String) (now : Nat)
    (invFail : Bool) : MutOutcome :=
  let r := removeItem st userId contentId now
  if !r.1 then
    { result := .error (.itemNotFound contentId), store := r.2, cache := c
      trace := [.storeRemoveItem userId contentId] }
  else
    { result := .ok (), store := r.2, cache := invalidateUserList invFail c userId
      trace := [.storeRemoveItem userId contentId, .cacheInvalidate userId] }

/-- The untyped MongoDB server error that `MyListRepository.addItem`'s
`findOneAndUpdate` raises on every execution: its update document applies
both `$push {items: item}` and `$setOnInsert {items: [item]}` to the path
`items`, which MongoDB rejects as conflicting update operators when it
parses the update — before matching, modifying or upserting anything — so
the write never happens, item absent or not, document present or not. -/
def mongoConflictMsg : String :=
  "Updating the path 'items' would create a conflict at 'items'"

/-- Outcome of `MyListRepository.addItem` as the database executes it. -/
inductive RepoAddOutcome where
  | itemAlreadyExists
  | conflictThrown
deriving DecidableEq, Repr

/-- `MyListRepository.addItem` as the database executes it: the `itemExists`
pre-check throws the untyped `Error('Item already exists in list')`;
otherwise `findOneAndUpdate` raises the conflicting-update-operators error
(see `mongoConflictMsg`) with nothing written, and the catch block's
race-condition re-check reads `itemExists` on the unchanged store — false
here, since the pre-check just passed — so it re-throws the conflict
error. -/
def addItemMongo (st : ListStore) (userId contentId : String) : RepoAddOutcome :=
  if itemExists st userId contentId then .itemAlreadyExists else .conflictThrown

/-- `MyListService.addToMyList` over the store as MongoDB executes the
write: the three precondition checks run exactly as in the service source,
but the repository write always throws the conflicting-update-operators
error, which the service's catch block re-throws unchanged (it is none of
the typed errors it recognises); the store is never written and — the
exception aborting the call before step 5 — the cache is never
invalidated. -/
def addToMyListReal (env : Env) (st : ListStore) (c : Cache) (userId contentId : String)
    (contentType : ContentType) : MutOutcome :=
  if !(env.userExists userId) then
    { result := .error (.userNotFound userId), store := st, cache := c
      trace := [.userLookup userId] }
  else if !(contentExists env.db contentId contentType) then
    { result := .error (.contentNotFound contentId contentType), store := st, cache := c
      trace := [.userLookup userId, .contentLookup contentId contentType] }
  else if itemExists st userId contentId then
    { result := .error (.duplicateItem contentId), store := st, cache := c
      trace := [.userLookup userId, .contentLookup contentId contentType,
                .duplicateCheck userId contentId] }
  else
    match addItemMongo st userId contentId with
    | .itemAlreadyExists =>
        { result := .error (.unknown "Item already exists in list"), store := st, cache := c
          trace := [.userLookup userId, .contentLookup contentId contentType,
                    .duplicateCheck userId contentId, .storeAddItem userId contentId] }
    | .conflictThrown =>
        { result := .error (.unknown mongoConflictMsg), store := st, cache := c
          trace := [.userLookup userId, .contentLookup contentId contentType,
                    .duplicateCheck userId contentId, .storeAddItem userId contentId] }

/-- `ListMyItemsQuery` from `myList.types.ts` (all fields optional). -/
structure ListMyItemsQuery where
  page : Option Nat
  limit : Option Nat
  contentType : Option ContentType
deriving DecidableEq, Repr

/-- JavaScript `x || d` on an optional number: `undefined` and `0` are
falsy. -/
def jsOr (x : Option Nat) (d : Nat) : Nat :=
  match x with
  | none => d
  | some 0 => d
  | some n => n

/-- Response assembly for one item (`getMyList` step 5): base fields plus
the movie-specific fields when `isMovie`, else `episodeCount`. -/
def mkItemDetails (item : MyListItem) (content : Content) : MyListItemWithDetails :=
  if isMovie content then
    { contentId := item.contentId, contentType := item.contentType
      title := content.title, description := content.description
      genres := content.genres, addedAt := item.addedAt
      releaseDate := match content with | .movie m => some m.releaseDate | .tvshow _ => none
      director := match content with | .movie m => some m.director | .tvshow _ => none
      actors := match content with | .movie m => some m.actors | .tvshow _ => none
      episodeCount := none }
  else
    { contentId := item.contentId, contentType := item.contentType
      title := content.title, description := content.description
      genres := content.genres, addedAt := item.addedAt
      releaseDate := none, director := none, actors := none
      episodeCount := match content with | .movie _ => none | .tvshow t => some t.episodes.length }

/-- The cache-miss computation of `MyListService.getMyList` (steps 2-6):
fetch the page, short-circuit an empty page to an empty response carrying
the store's pagination, otherwise filter by content type, batch-resolve
content, drop unresolved entries, and — only when a filter was supplied —
recompute the pagination metadata over the surviving items. -/
def buildListResponse (env : Env) (st : ListStore) (userId : String) (page limit : Nat)
    (contentType : Option ContentType) : PaginatedMyListResponse :=
  let result := getItemsPaginated st userId page limit
  if result.items.length = 0 then
    { data := [], pagination := result.pagination }
  else
    let itemsToProcess : List MyListItem :=
      match contentType with
      | some t => result.items.filter (fun it => it.contentType == t)
      | none => result.items
    let contentDetails :=
      findContentsByIds env.db (itemsToProcess.map (fun it => (it.contentId, it.contentType)))
    let itemsWithDetails := itemsToProcess.filterMap (fun it =>
      (contentDetails.find? (fun content => content.id == it.contentId)).map (mkItemDetails it))
    let pagination :=
      match contentType with
      | some _ =>
          let totalFiltered := itemsWithDetails.length
          { page := result.pagination.page, limit := result.pagination.limit
            total := totalFiltered
            totalPages := ceilDiv totalFiltered limit
            hasNextPage := decide (page < ceilDiv totalFiltered limit)
            hasPreviousPage := decide (1 < page) }
      | none => result.pagination
    { data := itemsWithDetails, pagination := pagination }

/-- Outcome of `getMyList`: the response and the post cache. -/
structure GetOutcome where
  response : PaginatedMyListResponse
  cache : Cache

/-- `MyListService.getMyList`: default the query (`|| 1`, `|| 10`), return a
cache hit verbatim, otherwise compute the page and cache it (empty results
included) under the same key.  `readFail` and `writeFail` model backend
cache errors absorbed inside `CacheService`. -/
def getMyList (env : Env) (st : ListStore) (c : Cache) (userId : String)
    (query : ListMyItemsQuery) (readFail writeFail : Bool) : GetOutcome :=
  let page := jsOr query.page 1
  let limit := jsOr query.limit 10
  let contentType := query.contentType
  match getCachedList readFail c userId page limit contentType with
  | some cached => { response := cached, cache := c }
  | none =>
      let response := buildListResponse env st userId page limit contentType
      { response := response
        cache := setCachedList writeFail c userId page limit response contentType }

/-! ## Operation histories

Sequential runs of the engine against one store and one cache, used for the
cache-consistency claims: the cache starts empty (process start) and is
touched only through the engine. -/

/-- One inbound business operation. -/
inductive Op where
  | add (userId contentId : String) (ct : ContentType) (now : Nat)
  | remove (userId contentId : String) (now : Nat)
  | getList (userId : String) (query : ListMyItemsQuery)

/-- The shared state an operation history acts on. -/
structure SysState where
  store : ListStore
  cache : Cache

/-- The user an operation is performed for. -/
def opUserId : Op → String
  | .add u _ _ _ => u
  | .remove u _ _ => u
  | .getList u _ => u

/-- Execute one operation (no cache faults), with the repository add as the
database executes it: an add performs its checks and then throws the
conflicting-update-operators error, touching neither store nor cache; a
remove writes and invalidates; a list call may fill the cache.  (`Op.add`'s
timestamp is irrelevant because nothing is ever written by an add.) -/
def applyOpReal (env : Env) (s : SysState) : Op → SysState
  | .add u cid ct _ =>
      let o := addToMyListReal env s.store s.cache u cid ct
      { store := o.store, cache := o.cache }
  | .remove u cid now =>
      let o := removeFromMyList s.store s.cache u cid now false
      { store := o.store, cache := o.cache }
  | .getList u q =>
      let o := getMyList env s.store s.cache u q false false
      { store := s.store, cache := o.cache }

/-- Execute a sequence of operations. -/
def runOpsReal (env : Env) (s : SysState) (ops : List Op) : SysState :=
  ops.foldl (applyOpReal env) s

/-! ## The add-item race

For the uniqueness-under-concurrency claim the interesting interleavings
are those of several concurrent `AddToList` calls for one
`(userId, contentId)` pair, with the user and the content existing and the
item initially absent.  Three steps of each call observe (or would change)
the membership of that pair, each individually atomic at the store:

* the service-level `itemExists` pre-check (`MyListService.addToMyList`
  step 3), which throws the typed `DuplicateItemError`;
* the repository-level pre-check at the top of `MyListRepository.addItem`,
  which throws the untyped `Error('Item already exists in list')`;
* the `findOneAndUpdate` write, which — its update document pairing
  `$push` and `$setOnInsert` on the path `items` — raises the
  conflicting-update-operators error in *every* state before executing
  anything; the catch block then re-checks membership, converting to the
  untyped duplicate error when the pair is present and re-throwing the
  conflict error otherwise.

The machine keeps one boolean — whether the pair is present in the store —
and a program counter per call; a schedule picks which call steps next. -/

/-- How one racing `AddToList` call can end: returning without an
exception, the typed service-level duplicate, the untyped repository
duplicate, or the untyped conflicting-update-operators server error. -/
inductive AddCallOutcome where
  | success
  | duplicateTyped
  | duplicateUntyped
  | conflictError
deriving DecidableEq, Repr

/-- Program counter of one racing call. -/
inductive CallPhase where
  | beforeServiceCheck
  | beforeRepoCheck
  | beforeWrite
  | done (outcome : AddCallOutcome)
deriving DecidableEq, Repr

/-- Shared membership bit plus the per-call phases. -/
structure RaceState where
  present : Bool
  calls : List CallPhase
deriving DecidableEq, Repr

/-- One atomic step of one call, as the database executes it: the service
pre-check fails typed; the repository pre-check fails untyped; the write
raises the conflict error with nothing written, after which the catch
block's re-check yields the untyped duplicate error when the pair is
present and re-throws the conflict error when it is absent.  No branch
ever sets the membership bit: the conflict is raised before the update
executes, so the pair is never inserted. -/
def stepCall (present : Bool) : CallPhase → CallPhase × Bool
  | .beforeServiceCheck =>
      if present then (.done .duplicateTyped, present) else (.beforeRepoCheck, present)
  | .beforeRepoCheck =>
      if present then (.done .duplicateUntyped, present) else (.beforeWrite, present)
  | .beforeWrite =>
      if present then (.done .duplicateUntyped, present) else (.done .conflictError, present)
  | .done o => (.done o, present)

/-- Let call `i` take its next atomic step (no-op on finished calls or
out-of-range indices). -/
def raceStep (s : RaceState) (i : Nat) : RaceState :=
  match s.calls[i]? with
  | none => s
  | some ph =>
      let r := stepCall s.present ph
      { present := r.2, calls := s.calls.set i r.1 }

/-- Run a schedule of steps. -/
def runRace (s : RaceState) (sched : List Nat) : RaceState :=
  sched.foldl raceStep s

/-- `n` concurrent calls, item initially absent. -/
def initRace (n : Nat) : RaceState :=
  { present := false, calls := List.replicate n .beforeServiceCheck }

deriving instance DecidableEq for Except

/-! ## Supporting definitions for the verification -/

/-- Value of a digit-character list, used to invert the rendering. -/
def charsVal (l : List Char) : Nat := l.foldl (fun a c => 10 * a + (c.toNat - 48)) 0

/-! ## Sample data for concrete evaluations -/

def sampleMovie : Movie :=
  { id := "m1", title := "Matrix", description := "d", genres := ["Action"]
    releaseDate := 10, director := "W", actors := ["K"] }

def env0 : Env :=
  { userExists := fun u => u == "u1" || u == "u2"
    db := { movies := fun i => if i == "m1" then some sampleMovie else none
            tvshows := fun _ => none } }

def st0 : ListStore := fun _ => none

def itemM1 : MyListItem := { contentId := "m1", contentType := .Movie, addedAt := 1 }

def stWithM1 : ListStore :=
  storeSet st0 "u1" { userId := "u1", items := [itemM1], createdAt := 0, updatedAt := 1 }

/-- The entries of the fetched page that survive the optional content-type
filter (`getMyList` step 3). -/
def pageItems (st : ListStore) (userId : String) (page limit : Nat)
    (ct : Option ContentType) : List MyListItem :=
  let result := getItemsPaginated st userId page limit
  match ct with
  | some t => result.items.filter (fun it => it.contentType == t)
  | none => result.items

/-- The batched content lookup for those entries (`getMyList` step 4). -/
def pageContent (env : Env) (st : ListStore) (userId : String) (page limit : Nat)
    (ct : Option ContentType) : List Content :=
  findContentsByIds env.db
    ((pageItems st userId page limit ct).map (fun it => (it.contentId, it.contentType)))

def itemGhost : MyListItem := { contentId := "ghost", contentType := .Movie, addedAt := 2 }

def stC9 : ListStore :=
  storeSet st0 "u9" { userId := "u9", items := [itemM1, itemGhost], createdAt := 0, updatedAt := 2 }

def isSuccess (ph : CallPhase) : Bool := ph == CallPhase.done .success

/-- Whether a racing call has finished. -/
def isDone : CallPhase → Bool
  | .done _ => true
  | _ => false

def successCount (s : RaceState) : Nat := (s.calls.filter isSuccess).length

/-- The phases reachable from the absent-item start: the three program
points, or completion with the conflict error. -/
def phaseOk (ph : CallPhase) : Prop :=
  ph = .beforeServiceCheck ∨ ph = .beforeRepoCheck ∨ ph = .beforeWrite
    ∨ ph = .done .conflictError

def itemM2 : MyListItem := { contentId := "m2", contentType := .Movie, addedAt := 2 }

/-- A user whose id contains the regex quantifier `+`. -/
def stMeta : ListStore :=
  storeSet st0 "a+" { userId := "a+", items := [itemM1, itemM2], createdAt := 0, updatedAt := 2 }

def qDefault : ListMyItemsQuery := { page := some 1, limit := some 10, contentType := none }

/-- Fill the cache for `a+`, then remove an item (whose invalidation the
mis-built regex misses). -/
def opsMeta : List Op := [.getList "a+" qDefault, .remove "a+" "m2" 5]

def sysMeta : SysState := runOpsReal env0 { store := stMeta, cache := emptyCache } opsMeta

/-- Every entry the cache holds is exactly what the cache-miss computation
would produce from the current store for that entry's key. -/
def Coherent (env : Env) (s : SysState) : Prop :=
  ∀ u p l ct v, s.cache (getListCacheKey u p l ct) = some v →
    v = buildListResponse env s.store u p l ct

def respEmpty : PaginatedMyListResponse :=
  { data := []
    pagination := { page := 1, limit := 10, total := 0, totalPages := 0
                    hasNextPage := false, hasPreviousPage := false } }

/-! ## Decimal rendering facts -/

theorem digitChr_toNat (d : Nat) (h : d < 10) : (digitChr d).toNat = 48 + d := by
  interval_cases d <;> decide

theorem natCharsAux_digits : ∀ (fuel n : Nat), n < fuel →
    ∀ c ∈ natCharsAux fuel n, 48 ≤ c.toNat ∧ c.toNat ≤ 57 := by
  intro fuel
  induction fuel with
  | zero => intro n h; omega
  | succ fuel ih =>
      intro n hn c hc
      by_cases h : n < 10
      · simp [natCharsAux, h] at hc
        subst hc
        rw [digitChr_toNat n h]
        omega
      · simp only [natCharsAux, h, if_false] at hc
        rcases List.mem_append.mp hc with hc | hc
        · exact ih (n / 10) (by omega) c hc
        · have hc2 : c = digitChr (n % 10) := by simpa using hc
          subst hc2
          rw [digitChr_toNat (n % 10) (Nat.mod_lt n (by omega))]
          have := Nat.mod_lt n (show 0 < 10 by omega)
          omega

theorem natChars_digits (n : Nat) : ∀ c ∈ natChars n, 48 ≤ c.toNat ∧ c.toNat ≤ 57 :=
  natCharsAux_digits (n + 1) n (Nat.lt_succ_self n)

theorem natChars_no_colon (n : Nat) : (':' : Char) ∉ natChars n := by
  intro h
  have hb := natChars_digits n ':' h
  have : (':' : Char).toNat = 58 := rfl
  omega

theorem natCharsAux_ne_nil : ∀ (fuel n : Nat), n < fuel → natCharsAux fuel n ≠ [] := by
  intro fuel
  induction fuel with
  | zero => intro n h; omega
  | succ fuel ih =>
      intro n hn
      by_cases h : n < 10
      · simp [natCharsAux, h]
      · simp [natCharsAux, h]

theorem charsVal_append_digit (l : List Char) (c : Char) :
    charsVal (l ++ [c]) = 10 * charsVal l + (c.toNat - 48) := by
  simp [charsVal, List.foldl_append]

theorem charsVal_natCharsAux : ∀ (fuel n : Nat), n < fuel →
    charsVal (natCharsAux fuel n) = n := by
  intro fuel
  induction fuel with
  | zero => intro n h; omega
  | succ fuel ih =>
      intro n hn
      by_cases h : n < 10
      · simp [natCharsAux, h, charsVal, digitChr_toNat n h]
      · rw [show natCharsAux (fuel + 1) n
            = natCharsAux fuel (n / 10) ++ [digitChr (n % 10)] from by
          simp [natCharsAux, h]]
        rw [charsVal_append_digit, ih (n / 10) (by omega),
          digitChr_toNat (n % 10) (Nat.mod_lt n (by omega))]
        have := Nat.div_add_mod n 10
        omega

theorem natChars_inj (m n : Nat) (h : natChars m = natChars n) : m = n := by
  have hm := charsVal_natCharsAux (m + 1) m (Nat.lt_succ_self m)
  have hn := charsVal_natCharsAux (n + 1) n (Nat.lt_succ_self n)
  rw [← hm, ← hn]
  unfold natChars at h
  rw [h]

theorem natToString_data (n : Nat) : (natToString n).data = natChars n := rfl

/-! ## Helper lemmas -/

theorem storeSet_same (st : ListStore) (u : String) (doc : MyListDoc) :
    storeSet st u doc u = some doc := by
  simp [storeSet]

theorem storeSet_other (st : ListStore) (u v : String) (doc : MyListDoc) (h : v ≠ u) :
    storeSet st u doc v = st v := by
  simp [storeSet, h]

/-- For a user with an aggregate, the repository's remove always reports a
removal: the flag is computed on the post-`$pull` items, which never contain
the removed `contentId`. -/
theorem removeItem_of_doc (st : ListStore) (u cid : String) (now : Nat) (doc : MyListDoc)
    (h : st u = some doc) :
    removeItem st u cid now =
      (true, storeSet st u
        { doc with items := doc.items.filter (fun it => !(it.contentId == cid))
                   updatedAt := now }) := by
  simp only [removeItem, h]
  refine Prod.ext ?_ rfl
  simp [List.any_eq_true, List.mem_filter]

/-! ## Claim C1 -/

/-- Claim C1 fails on the code: the three precondition checks do run in
exactly the claimed order — user existence, then content existence, then
duplicate membership — each failure point returning its own typed error
while performing no later collaborator call and no store or cache write.
But the final "otherwise it succeeds" branch is false: the repository
write's update document pairs `$push {items}` with `$setOnInsert {items}`,
conflicting update operators MongoDB rejects on every call, so a fresh add
with all three checks passing throws the untyped server error (re-thrown
by the service, HTTP 500), writes nothing and invalidates nothing — an
`AddToList` call never succeeds. -/
theorem addToMyList_write_always_throws (env : Env) (st : ListStore) (c : Cache)
    (userId contentId : String) (ct : ContentType) :
    (env.userExists userId = false →
      addToMyListReal env st c userId contentId ct =
        { result := .error (.userNotFound userId), store := st, cache := c
          trace := [.userLookup userId] })
    ∧ (env.userExists userId = true → contentExists env.db contentId ct = false →
      addToMyListReal env st c userId contentId ct =
        { result := .error (.contentNotFound contentId ct), store := st, cache := c
          trace := [.userLookup userId, .contentLookup contentId ct] })
    ∧ (env.userExists userId = true → contentExists env.db contentId ct = true →
      itemExists st userId contentId = true →
      addToMyListReal env st c userId contentId ct =
        { result := .error (.duplicateItem contentId), store := st, cache := c
          trace := [.userLookup userId, .contentLookup contentId ct,
                    .duplicateCheck userId contentId] })
    ∧ (env.userExists userId = true → contentExists env.db contentId ct = true →
      itemExists st userId contentId = false →
      addToMyListReal env st c userId contentId ct =
        { result := .error (.unknown mongoConflictMsg), store := st, cache := c
          trace := [.userLookup userId, .contentLookup contentId ct,
                    .duplicateCheck userId contentId, .storeAddItem userId contentId] })
    ∧ ∀ r, (addToMyListReal env st c userId contentId ct).result ≠ .ok r := by
  refine ⟨?_, ?_, ?_, ?_, ?_⟩
  · intro hu; simp [addToMyListReal, hu]
  · intro hu hc; simp [addToMyListReal, hu, hc]
  · intro hu hc hi; simp [addToMyListReal, hu, hc, hi]
  · intro hu hc hi; simp [addToMyListReal, addItemMongo, hu, hc, hi]
  · intro r
    cases hu : env.userExists userId <;>
      cases hc : contentExists env.db contentId ct <;>
      cases hi : itemExists st userId contentId <;>
      simp [addToMyListReal, addItemMongo, hu, hc, hi]

/-- Concrete runs of `addToMyList_write_always_throws`: a missing user,
missing content, a duplicate, and a fully valid fresh add — which throws
the conflict error instead of succeeding — against the sample
environment. -/
theorem addToMyList_write_always_throws_witness :
    addToMyListReal env0 st0 emptyCache "nobody" "m1" ContentType.Movie =
      { result := .error (.userNotFound "nobody"), store := st0, cache := emptyCache
        trace := [.userLookup "nobody"] }
    ∧ addToMyListReal env0 st0 emptyCache "u1" "m2" ContentType.Movie =
      { result := .error (.contentNotFound "m2" .Movie), store := st0, cache := emptyCache
        trace := [.userLookup "u1", .contentLookup "m2" .Movie] }
    ∧ addToMyListReal env0 stWithM1 emptyCache "u1" "m1" ContentType.Movie =
      { result := .error (.duplicateItem "m1"), store := stWithM1, cache := emptyCache
        trace := [.userLookup "u1", .contentLookup "m1" .Movie, .duplicateCheck "u1" "m1"] }
    ∧ addToMyListReal env0 st0 emptyCache "u1" "m1" ContentType.Movie =
      { result := .error (.unknown mongoConflictMsg), store := st0, cache := emptyCache
        trace := [.userLookup "u1", .contentLookup "m1" .Movie, .duplicateCheck "u1" "m1",
                  .storeAddItem "u1" "m1"] } := by
  refine ⟨?_, ?_, ?_, ?_⟩
  · exact (addToMyList_write_always_throws env0 st0 emptyCache "nobody" "m1"
      ContentType.Movie).1 (by decide)
  · exact (addToMyList_write_always_throws env0 st0 emptyCache "u1" "m2"
      ContentType.Movie).2.1 (by decide) (by decide)
  · exact (addToMyList_write_always_throws env0 stWithM1 emptyCache "u1" "m1"
      ContentType.Movie).2.2.1 (by decide) (by decide) (by decide)
  · exact (addToMyList_write_always_throws env0 st0 emptyCache "u1" "m1"
      ContentType.Movie).2.2.2.1 (by decide) (by decide) (by decide)

/-! ## Claim C4 -/

/-- Claim C4 fails on the code: for a user who has an aggregate document,
`RemoveFromList` *succeeds even when the item was never present*, because
`MyListRepository.removeItem` computes its `removed` flag from the
post-`$pull` document (`result.items.some(...)` is always false after the
pull).  `ItemNotFound` is returned only when the user has no aggregate at
all, and two successive removals of the same item both succeed.  The
repository's own comment and the integration test that expects 404 for an
item not in the list show the claim describes the intent. -/
theorem removeFromMyList_succeeds_on_absent_item :
    (removeFromMyList stWithM1 emptyCache "u1" "zz" 7 false).result = .ok ()
    ∧ itemExists stWithM1 "u1" "zz" = false
    ∧ (removeFromMyList stWithM1 emptyCache "u1" "m1" 7 false).result = .ok ()
    ∧ (removeFromMyList
        (removeFromMyList stWithM1 emptyCache "u1" "m1" 7 false).store
        emptyCache "u1" "m1" 8 false).result = .ok ()
    ∧ (removeFromMyList st0 emptyCache "u1" "m1" 7 false).result =
        .error (.itemNotFound "m1") := by
  decide

/-! ## Claim C5 -/

/-- Claim C5: `updatedAt` is set to the operation timestamp on every
successful add or remove, and a failed add or remove performs no durable
write — the store, `updatedAt` included, is returned unchanged.  (A remove
fails only for a user with no aggregate, in which case the conditional
update matched no document.) -/
theorem updatedAt_changes_on_success_only (env : Env) (st : ListStore) (c : Cache)
    (userId contentId : String) (ct : ContentType) (now : Nat) (invFail : Bool) :
    ((addToMyList env st c userId contentId ct now invFail).result = .ok () →
      ∃ doc, (addToMyList env st c userId contentId ct now invFail).store userId = some doc
        ∧ doc.updatedAt = now)
    ∧ (∀ e, (addToMyList env st c userId contentId ct now invFail).result = .error e →
      (addToMyList env st c userId contentId ct now invFail).store = st)
    ∧ ((removeFromMyList st c userId contentId now invFail).result = .ok () →
      ∃ doc, (removeFromMyList st c userId contentId now invFail).store userId = some doc
        ∧ doc.updatedAt = now)
    ∧ (∀ e, (removeFromMyList st c userId contentId now invFail).result = .error e →
      (removeFromMyList st c userId contentId now invFail).store = st) := by
  refine ⟨?_, ?_, ?_, ?_⟩
  · intro hok
    cases hu : env.userExists userId
    · simp [addToMyList, hu] at hok
    · cases hc : contentExists env.db contentId ct
      · simp [addToMyList, hu, hc] at hok
      · cases hi : itemExists st userId contentId
        · cases hst : st userId with
          | none =>
              refine ⟨⟨userId, [⟨contentId, ct, now⟩], now, now⟩, ?_, rfl⟩
              simp [addToMyList, addItem, hu, hc, hi, hst, storeSet_same]
          | some doc =>
              refine ⟨{ doc with items := doc.items ++ [⟨contentId, ct, now⟩], updatedAt := now }, ?_, rfl⟩
              simp [addToMyList, addItem, hu, hc, hi, hst, storeSet_same]
        · simp [addToMyList, hu, hc, hi] at hok
  · intro e he
    cases hu : env.userExists userId
    · simp [addToMyList, hu]
    · cases hc : contentExists env.db contentId ct
      · simp [addToMyList, hu, hc]
      · cases hi : itemExists st userId contentId
        · cases hst : st userId <;>
            simp [addToMyList, addItem, hu, hc, hi, hst] at he
        · simp [addToMyList, hu, hc, hi]
  · intro hok
    cases hst : st userId with
    | none => simp [removeFromMyList, removeItem, hst] at hok
    | some doc =>
        refine ⟨{ doc with items := doc.items.filter (fun it => !(it.contentId == contentId)), updatedAt := now }, ?_, rfl⟩
        simp [removeFromMyList, removeItem_of_doc st userId contentId now _ hst, storeSet_same]
  · intro e he
    cases hst : st userId
    · simp [removeFromMyList, removeItem, hst]
    · simp [removeFromMyList, removeItem_of_doc st userId contentId now _ hst] at he

/-- Concrete runs of `updatedAt_changes_on_success_only`: a successful add
stamps `updatedAt := 5`, and a failed remove leaves the store untouched. -/
theorem updatedAt_changes_on_success_only_witness :
    (∃ doc, (addToMyList env0 st0 emptyCache "u1" "m1" ContentType.Movie 5 false).store "u1"
        = some doc ∧ doc.updatedAt = 5)
    ∧ (removeFromMyList st0 emptyCache "u1" "m1" 7 false).store = st0 := by
  refine ⟨?_, ?_⟩
  · exact (updatedAt_changes_on_success_only env0 st0 emptyCache "u1" "m1"
      ContentType.Movie 5 false).1 (by decide)
  · exact (updatedAt_changes_on_success_only env0 st0 emptyCache "u1" "m1"
      ContentType.Movie 7 false).2.2.2 (.itemNotFound "m1") (by decide)

/-! ## Claim C8 -/

/-- Claim C8: cache-layer failures are absorbed locally.  A throwing
invalidation changes neither the business result nor the store of an add or
a remove; a throwing cache read makes `GetList` behave exactly as a cache
miss (the same response as with the cache layer disabled); and a throwing
cache write leaves the `GetList` response unchanged. -/
theorem cache_failures_absorbed (env : Env) (st : ListStore) (c : Cache)
    (userId contentId : String) (ct : ContentType) (now : Nat)
    (q : ListMyItemsQuery) (writeFail readFail : Bool) :
    ((addToMyList env st c userId contentId ct now true).result
        = (addToMyList env st c userId contentId ct now false).result
      ∧ (addToMyList env st c userId contentId ct now true).store
        = (addToMyList env st c userId contentId ct now false).store)
    ∧ ((removeFromMyList st c userId contentId now true).result
        = (removeFromMyList st c userId contentId now false).result
      ∧ (removeFromMyList st c userId contentId now true).store
        = (removeFromMyList st c userId contentId now false).store)
    ∧ (getMyList env st c userId q true writeFail).response
        = (getMyList env st emptyCache userId q false writeFail).response
    ∧ (getMyList env st c userId q readFail true).response
        = (getMyList env st c userId q readFail false).response := by
  refine ⟨⟨?_, ?_⟩, ⟨?_, ?_⟩, ?_, ?_⟩
  · cases hu : env.userExists userId <;>
      cases hc : contentExists env.db contentId ct <;>
      cases hi : itemExists st userId contentId <;>
      cases hst : st userId <;>
      simp [addToMyList, addItem, hu, hc, hi, hst]
  · cases hu : env.userExists userId <;>
      cases hc : contentExists env.db contentId ct <;>
      cases hi : itemExists st userId contentId <;>
      cases hst : st userId <;>
      simp [addToMyList, addItem, hu, hc, hi, hst]
  · cases hst : st userId <;> simp [removeFromMyList, removeItem, hst]
  · cases hst : st userId <;> simp [removeFromMyList, removeItem, hst]
  · simp [getMyList, getCachedList, emptyCache]
  · cases hcc : c (getListCacheKey userId (jsOr q.page 1) (jsOr q.limit 10) q.contentType) <;>
      cases readFail <;>
      simp [getMyList, getCachedList, hcc]

/-! ## Claim C6 -/

theorem le_ceilDiv_mul (a b : Nat) (hb : 1 ≤ b) : a ≤ ceilDiv a b * b := by
  unfold ceilDiv
  have h := (Nat.div_lt_iff_lt_mul (x := a + b - 1) (y := (a + b - 1) / b + 1)
    (by omega)).1 (Nat.lt_succ_self _)
  have h2 : ((a + b - 1) / b + 1) * b = (a + b - 1) / b * b + b := by ring
  omega

theorem ceilDiv_pred_mul_lt (a b : Nat) (hb : 1 ≤ b) (hq : 1 ≤ ceilDiv a b) :
    (ceilDiv a b - 1) * b < a := by
  unfold ceilDiv at hq ⊢
  have h := Nat.div_mul_le_self (a + b - 1) b
  generalize hq2 : (a + b - 1) / b = q at h hq ⊢
  obtain ⟨q1, rfl⟩ : ∃ q1, q = q1 + 1 := ⟨q - 1, by omega⟩
  have h2 : (q1 + 1) * b = q1 * b + b := by ring
  simp only [Nat.add_sub_cancel]
  omega

theorem mem_insertDesc (x a : MyListItem) (s : List MyListItem) :
    a ∈ insertDesc x s ↔ a = x ∨ a ∈ s := by
  induction s with
  | nil => simp [insertDesc]
  | cons y ys ih =>
      cases h : addedAtDescLe x y
      · simp only [insertDesc, h, Bool.false_eq_true, if_false, List.mem_cons, ih]
        tauto
      · simp only [insertDesc, h, if_true, List.mem_cons]

/-- The repository's sort really is descending in `addedAt`. -/
theorem insertDesc_sorted (x : MyListItem) (s : List MyListItem)
    (hs : s.Pairwise (fun a b => b.addedAt ≤ a.addedAt)) :
    (insertDesc x s).Pairwise (fun a b => b.addedAt ≤ a.addedAt) := by
  induction s with
  | nil => simp [insertDesc]
  | cons y ys ih =>
      rcases List.pairwise_cons.mp hs with ⟨hy, hys⟩
      cases h : addedAtDescLe x y
      · have hxy : x.addedAt < y.addedAt := by
          have := of_decide_eq_false h
          omega
        simp only [insertDesc, h, Bool.false_eq_true, if_false]
        refine List.pairwise_cons.mpr ⟨?_, ih hys⟩
        intro a ha
        rcases (mem_insertDesc x a ys).mp ha with rfl | ha
        · omega
        · exact hy a ha
      · have hxy : y.addedAt ≤ x.addedAt := by
          have := of_decide_eq_true h
          omega
        simp only [insertDesc, h, if_true]
        refine List.pairwise_cons.mpr ⟨?_, hs⟩
        intro a ha
        rcases List.mem_cons.mp ha with rfl | ha
        · exact hxy
        · exact le_trans (hy a ha) hxy

theorem sortDesc_sorted (l : List MyListItem) :
    (sortDesc l).Pairwise (fun a b => b.addedAt ≤ a.addedAt) := by
  induction l with
  | nil => simp [sortDesc]
  | cons x xs ih => exact insertDesc_sorted x (sortDesc xs) ih

theorem filter_insertDesc (x : MyListItem) (s : List MyListItem) (k : Nat) :
    (insertDesc x s).filter (fun e => e.addedAt == k)
      = (if x.addedAt == k then [x] else []) ++ s.filter (fun e => e.addedAt == k) := by
  induction s with
  | nil => cases hx : x.addedAt == k <;> simp [insertDesc, hx]
  | cons y ys ih =>
      cases h : addedAtDescLe x y
      · have hxy : x.addedAt < y.addedAt := by
          have := of_decide_eq_false h
          omega
        cases hy : y.addedAt == k
        · simp only [insertDesc, h, Bool.false_eq_true, if_false, List.filter_cons, hy, ih]
        · have hyk : y.addedAt = k := by simpa using hy
          have hx : (x.addedAt == k) = false := by
            simp only [beq_eq_false_iff_ne, ne_eq]
            omega
          simp only [insertDesc, h, Bool.false_eq_true, if_false, List.filter_cons, hy, ih, hx]
          simp
      · cases hx : x.addedAt == k <;>
          simp [insertDesc, h, List.filter_cons, hx]

/-- Stability of the repository's sort: for every value of the sort key,
the entries carrying that key appear in the sorted list exactly in their
original (stored) order. -/
theorem sortDesc_filter_addedAt (l : List MyListItem) (k : Nat) :
    (sortDesc l).filter (fun e => e.addedAt == k) = l.filter (fun e => e.addedAt == k) := by
  induction l with
  | nil => rfl
  | cons x xs ih =>
      have hsort : sortDesc (x :: xs) = insertDesc x (sortDesc xs) := rfl
      rw [hsort, filter_insertDesc, ih, List.filter_cons]
      cases hx : x.addedAt == k <;> simp [hx]

/-- Claim C6: the store's pagination returns the user's entries sorted by
`addedAt` descending with ties in original insertion order (the sort is
stable: the entries of each `addedAt` value keep their stored order),
sliced to positions `(page-1)*limit` up to `page*limit`; the metadata is
computed over the full unfiltered count, `totalPages` is the ceiling of
`total / limit` (characterised as the least page count covering `total`),
`hasNextPage = page < totalPages`, `hasPreviousPage = page > 1`; a user
with no list gets an empty result with `total = 0`, not an error. -/
theorem getItemsPaginated_spec (st : ListStore) (userId : String) (page limit : Nat)
    (_hp : 1 ≤ page) (hl : 1 ≤ limit) :
    (st userId = none →
      getItemsPaginated st userId page limit =
        { items := []
          pagination := { page := page, limit := limit, total := 0, totalPages := 0
                          hasNextPage := false, hasPreviousPage := false } })
    ∧ (∀ doc, st userId = some doc →
      (getItemsPaginated st userId page limit).items
          = ((sortDesc doc.items).drop ((page - 1) * limit)).take limit
        ∧ (sortDesc doc.items).Pairwise (fun a b => b.addedAt ≤ a.addedAt)
        ∧ (∀ k : Nat, (sortDesc doc.items).filter (fun e => e.addedAt == k)
            = doc.items.filter (fun e => e.addedAt == k))
        ∧ (getItemsPaginated st userId page limit).pagination.page = page
        ∧ (getItemsPaginated st userId page limit).pagination.limit = limit
        ∧ (getItemsPaginated st userId page limit).pagination.total = doc.items.length
        ∧ doc.items.length ≤ (getItemsPaginated st userId page limit).pagination.totalPages * limit
        ∧ ((getItemsPaginated st userId page limit).pagination.totalPages = 0
            ∨ ((getItemsPaginated st userId page limit).pagination.totalPages - 1) * limit
                < doc.items.length)
        ∧ (getItemsPaginated st userId page limit).pagination.hasNextPage
            = decide (page < (getItemsPaginated st userId page limit).pagination.totalPages)
        ∧ (getItemsPaginated st userId page limit).pagination.hasPreviousPage
            = decide (1 < page)) := by
  constructor
  · intro h
    simp [getItemsPaginated, h]
  · intro doc hdoc
    refine ⟨?_, sortDesc_sorted doc.items, sortDesc_filter_addedAt doc.items,
      ?_, ?_, ?_, ?_, ?_, ?_, ?_⟩
    · simp [getItemsPaginated, hdoc]
    · simp [getItemsPaginated, hdoc]
    · simp [getItemsPaginated, hdoc]
    · simp [getItemsPaginated, hdoc]
    · simpa [getItemsPaginated, hdoc] using le_ceilDiv_mul doc.items.length limit hl
    · by_cases hq : 1 ≤ ceilDiv doc.items.length limit
      · right
        simpa [getItemsPaginated, hdoc] using ceilDiv_pred_mul_lt doc.items.length limit hl hq
      · left
        simp [getItemsPaginated, hdoc]
        omega
    · simp [getItemsPaginated, hdoc]
    · simp [getItemsPaginated, hdoc]

/-- Concrete run of `getItemsPaginated_spec`: two items with equal
`addedAt` keep their stored order on page 1, and the metadata comes out
right for a one-page list. -/
theorem getItemsPaginated_spec_witness :
    (getItemsPaginated st0 "nobody" 1 10 =
      { items := []
        pagination := { page := 1, limit := 10, total := 0, totalPages := 0
                        hasNextPage := false, hasPreviousPage := false } })
    ∧ (getItemsPaginated stWithM1 "u1" 1 10).pagination.total = 1 := by
  constructor
  · exact (getItemsPaginated_spec st0 "nobody" 1 10 (by decide) (by decide)).1 (by decide)
  · exact ((getItemsPaginated_spec stWithM1 "u1" 1 10 (by decide) (by decide)).2
      { userId := "u1", items := [itemM1], createdAt := 0, updatedAt := 1 }
      (by decide)).2.2.2.2.2.1

/-! ## Claims C9 and C3 -/

theorem mkItemDetails_contentId (item : MyListItem) (cont : Content) :
    (mkItemDetails item cont).contentId = item.contentId := by
  cases cont <;> simp [mkItemDetails, isMovie]

theorem getItemsPaginated_page_limit (st : ListStore) (u : String) (p l : Nat) :
    (getItemsPaginated st u p l).pagination.page = p
    ∧ (getItemsPaginated st u p l).pagination.limit = l := by
  cases h : st u <;> simp [getItemsPaginated, h]

theorem buildListResponse_page_limit (env : Env) (st : ListStore) (userId : String)
    (page limit : Nat) (ct : Option ContentType) :
    (buildListResponse env st userId page limit ct).pagination.page = page
    ∧ (buildListResponse env st userId page limit ct).pagination.limit = limit := by
  unfold buildListResponse
  by_cases h0 : (getItemsPaginated st userId page limit).items.length = 0
  · simp [h0, (getItemsPaginated_page_limit st userId page limit).1,
      (getItemsPaginated_page_limit st userId page limit).2]
  · cases ct <;> simp [h0, (getItemsPaginated_page_limit st userId page limit).1,
      (getItemsPaginated_page_limit st userId page limit).2]

/-- The assembled page data is exactly the filtered page mapped through the
content resolution, unresolved entries dropped. -/
theorem buildListResponse_data (env : Env) (st : ListStore) (userId : String)
    (page limit : Nat) (ct : Option ContentType) :
    (buildListResponse env st userId page limit ct).data =
      (pageItems st userId page limit ct).filterMap (fun it =>
        ((pageContent env st userId page limit ct).find?
          (fun content => content.id == it.contentId)).map (mkItemDetails it)) := by
  by_cases h0 : (getItemsPaginated st userId page limit).items.length = 0
  · have hnil : (getItemsPaginated st userId page limit).items = [] :=
      List.length_eq_zero.mp h0
    cases ct <;> simp [buildListResponse, pageItems, pageContent, h0, hnil]
  · cases ct <;> simp [buildListResponse, pageItems, pageContent, h0]

/-- Claim C9: in every page assembly, each fetched (and filter-surviving)
entry whose content the batched lookup cannot resolve is silently dropped —
the response carries no entry with its `contentId` — while each entry whose
content resolves appears in the response with its content details; the
response data is exactly the fetched page mapped through content
resolution. -/
theorem getMyList_drops_unresolved (env : Env) (st : ListStore) (userId : String)
    (page limit : Nat) (ct : Option ContentType) :
    ((buildListResponse env st userId page limit ct).data =
      (pageItems st userId page limit ct).filterMap (fun it =>
        ((pageContent env st userId page limit ct).find?
          (fun content => content.id == it.contentId)).map (mkItemDetails it)))
    ∧ (∀ it ∈ pageItems st userId page limit ct,
        (pageContent env st userId page limit ct).find?
            (fun content => content.id == it.contentId) = none →
        ∀ d ∈ (buildListResponse env st userId page limit ct).data,
          d.contentId ≠ it.contentId)
    ∧ (∀ it ∈ pageItems st userId page limit ct,
        ∀ cont, (pageContent env st userId page limit ct).find?
            (fun content => content.id == it.contentId) = some cont →
        mkItemDetails it cont ∈ (buildListResponse env st userId page limit ct).data) := by
  refine ⟨buildListResponse_data env st userId page limit ct, ?_, ?_⟩
  · intro it hit hnone d hd
    rw [buildListResponse_data env st userId page limit ct] at hd
    obtain ⟨a, ha, hfa⟩ := List.mem_filterMap.mp hd
    obtain ⟨cont, hfind, rfl⟩ := Option.map_eq_some'.mp hfa
    rw [mkItemDetails_contentId]
    intro heq
    rw [heq] at hfind
    rw [hnone] at hfind
    exact Option.noConfusion hfind
  · intro it hit cont hfind
    rw [buildListResponse_data env st userId page limit ct]
    exact List.mem_filterMap.mpr ⟨it, hit, by rw [hfind]; rfl⟩

/-- Concrete run of `getMyList_drops_unresolved`: a page holding a
resolvable movie and an entry whose content is gone keeps the former with
its details and drops the latter. -/
theorem getMyList_drops_unresolved_witness :
    mkItemDetails itemM1 (Content.movie sampleMovie)
      ∈ (buildListResponse env0 stC9 "u9" 1 10 none).data
    ∧ ∀ d ∈ (buildListResponse env0 stC9 "u9" 1 10 none).data, d.contentId ≠ "ghost" := by
  constructor
  · exact (getMyList_drops_unresolved env0 stC9 "u9" 1 10 none).2.2 itemM1 (by decide)
      (Content.movie sampleMovie) (by decide)
  · exact (getMyList_drops_unresolved env0 stC9 "u9" 1 10 none).2.1 itemGhost (by decide)
      (by decide)

/-- Claim C3 fails on the code as stated: when the fetched page is empty
(`result.items.length === 0`) the call returns early with the store's
*unfiltered* pagination even when a `contentTypeFilter` was supplied, so the
metadata is not recomputed over the filtered subset.  Concretely: one item
in the list, `page = 2`, `limit = 10`, filter `Movie` — the fetched page is
empty, the page has zero entries of the requested type, yet `total = 1`. -/
theorem getMyList_filter_total_counterexample :
    (getMyList env0 stWithM1 emptyCache "u1"
        { page := some 2, limit := some 10, contentType := some .Movie }
        false false).response.pagination.total = 1
    ∧ ((getItemsPaginated stWithM1 "u1" 2 10).items.filter
        (fun it => it.contentType == ContentType.Movie)).length = 0 := by
  decide

/-- Claim C3 as amended: on a cache miss with a `contentTypeFilter`, when
the fetched page is *nonempty* the page is filtered post-hoc and the
pagination metadata is recomputed over the surviving entries of that single
page — `total` counts the entries of the requested type on the fetched page
*whose content the batched lookup also resolves* (the count that survives
into `data`), `totalPages = ceil(total / limit)`,
`hasNextPage = page < totalPages`, `hasPreviousPage = page > 1` — never
over the full filtered set across all pages; when the fetched page is
empty the call returns early with the store's unfiltered metadata
unchanged. -/
theorem getMyList_filter_recomputes_over_page (env : Env) (st : ListStore) (c : Cache)
    (userId : String) (q : ListMyItemsQuery) (t : ContentType)
    (hct : q.contentType = some t)
    (hmiss : c (getListCacheKey userId (jsOr q.page 1) (jsOr q.limit 10) q.contentType)
      = none) :
    ((getItemsPaginated st userId (jsOr q.page 1) (jsOr q.limit 10)).items.length = 0 →
      (getMyList env st c userId q false false).response =
        { data := []
          pagination := (getItemsPaginated st userId (jsOr q.page 1) (jsOr q.limit 10)).pagination })
    ∧ ((getItemsPaginated st userId (jsOr q.page 1) (jsOr q.limit 10)).items.length ≠ 0 →
      (getMyList env st c userId q false false).response.data =
        (pageItems st userId (jsOr q.page 1) (jsOr q.limit 10) (some t)).filterMap (fun it =>
          ((pageContent env st userId (jsOr q.page 1) (jsOr q.limit 10) (some t)).find?
            (fun content => content.id == it.contentId)).map (mkItemDetails it))
      ∧ (getMyList env st c userId q false false).response.pagination.total
          = (getMyList env st c userId q false false).response.data.length
      ∧ (getMyList env st c userId q false false).response.pagination.totalPages
          = ceilDiv (getMyList env st c userId q false false).response.data.length
              (jsOr q.limit 10)
      ∧ (getMyList env st c userId q false false).response.pagination.hasNextPage
          = decide (jsOr q.page 1 < ceilDiv
              (getMyList env st c userId q false false).response.data.length (jsOr q.limit 10))
      ∧ (getMyList env st c userId q false false).response.pagination.hasPreviousPage
          = decide (1 < jsOr q.page 1)
      ∧ (getMyList env st c userId q false false).response.pagination.page = jsOr q.page 1
      ∧ (getMyList env st c userId q false false).response.pagination.limit
          = jsOr q.limit 10) := by
  have hresp : (getMyList env st c userId q false false).response =
      buildListResponse env st userId (jsOr q.page 1) (jsOr q.limit 10) q.contentType := by
    simp [getMyList, getCachedList, hmiss]
  constructor
  · intro h0
    rw [hresp]
    simp [buildListResponse, h0]
  · intro h0
    have hdata := buildListResponse_data env st userId (jsOr q.page 1) (jsOr q.limit 10)
      q.contentType
    rw [hct] at hdata
    refine ⟨by rw [hresp, hct]; exact hdata, ?_, ?_, ?_, ?_, ?_, ?_⟩ <;> rw [hresp, hct]
    · simp [buildListResponse, h0]
    · simp [buildListResponse, h0]
    · simp [buildListResponse, h0]
    · simp [buildListResponse, h0]
    · exact (buildListResponse_page_limit env st userId (jsOr q.page 1) (jsOr q.limit 10)
        (some t)).1
    · exact (buildListResponse_page_limit env st userId (jsOr q.page 1) (jsOr q.limit 10)
        (some t)).2

/-- Concrete run of `getMyList_filter_recomputes_over_page`: the sample user
holds one movie; page 1 with filter `Movie` recomputes `total = 1` over the
fetched page. -/
theorem getMyList_filter_recomputes_over_page_witness :
    (getMyList env0 stWithM1 emptyCache "u1"
        { page := some 1, limit := some 10, contentType := some .Movie }
        false false).response.pagination.total
      = (getMyList env0 stWithM1 emptyCache "u1"
        { page := some 1, limit := some 10, contentType := some .Movie }
        false false).response.data.length := by
  exact ((getMyList_filter_recomputes_over_page env0 stWithM1 emptyCache "u1"
    { page := some 1, limit := some 10, contentType := some .Movie }
    ContentType.Movie rfl (by rfl)).2 (by decide)).2.1

/-! ## Claim C2 -/

theorem mem_of_getElem_opt {α : Type} (l : List α) (i : Nat) (a : α)
    (h : l[i]? = some a) : a ∈ l := by
  obtain ⟨hi, rfl⟩ := List.getElem?_eq_some.mp h
  exact List.getElem_mem hi

theorem stepCall_present (present : Bool) (ph : CallPhase) :
    (stepCall present ph).2 = present := by
  cases ph <;> cases present <;> rfl

theorem raceStep_present (s : RaceState) (i : Nat) :
    (raceStep s i).present = s.present := by
  unfold raceStep
  cases hget : s.calls[i]? with
  | none => rfl
  | some ph => simp [stepCall_present]

theorem runRace_present (sched : List Nat) (s : RaceState) :
    (runRace s sched).present = s.present := by
  induction sched generalizing s with
  | nil => rfl
  | cons i rest ih =>
      rw [runRace, List.foldl_cons, ← runRace, ih, raceStep_present]

theorem stepCall_false_ok (ph : CallPhase) (h : phaseOk ph) :
    phaseOk (stepCall false ph).1 := by
  rcases h with rfl | rfl | rfl | rfl
  · exact Or.inr (Or.inl rfl)
  · exact Or.inr (Or.inr (Or.inl rfl))
  · exact Or.inr (Or.inr (Or.inr rfl))
  · exact Or.inr (Or.inr (Or.inr rfl))

theorem raceStep_ok (s : RaceState) (i : Nat) (hp : s.present = false)
    (h : ∀ ph ∈ s.calls, phaseOk ph) :
    ∀ ph ∈ (raceStep s i).calls, phaseOk ph := by
  cases hget : s.calls[i]? with
  | none =>
      rw [show raceStep s i = s from by unfold raceStep; rw [hget]]
      exact h
  | some ph0 =>
      rw [show raceStep s i
          = { present := (stepCall s.present ph0).2
              calls := s.calls.set i (stepCall s.present ph0).1 } from by
        unfold raceStep; rw [hget]]
      intro ph hmem
      rcases List.mem_or_eq_of_mem_set hmem with hmem2 | rfl
      · exact h ph hmem2
      · rw [hp]
        exact stepCall_false_ok ph0 (h ph0 (mem_of_getElem_opt s.calls i ph0 hget))

theorem runRace_ok (sched : List Nat) (s : RaceState) (hp : s.present = false)
    (h : ∀ ph ∈ s.calls, phaseOk ph) :
    ∀ ph ∈ (runRace s sched).calls, phaseOk ph := by
  induction sched generalizing s with
  | nil => exact h
  | cons i rest ih =>
      rw [runRace, List.foldl_cons, ← runRace]
      exact ih (raceStep s i) (by rw [raceStep_present, hp]) (raceStep_ok s i hp h)

/-- Claim C2 fails on the code: among concurrent `AddToList` calls for one
`(userId, contentId)` with the item initially absent, *no* call ever
succeeds under *any* schedule — let alone exactly one.  Every write raises
the `$push`/`$setOnInsert` path-conflict error before executing, so the
membership bit is never set, no pre-check or catch-block re-check ever
observes a duplicate, and every call that completes ends with the untyped
conflict error the service re-throws as an unknown error (HTTP 500) — not
with success and not with `DuplicateItem`. -/
theorem race_no_call_succeeds (n : Nat) (sched : List Nat) :
    (runRace (initRace n) sched).present = false
    ∧ successCount (runRace (initRace n) sched) = 0
    ∧ ∀ ph ∈ (runRace (initRace n) sched).calls,
        ph ≠ CallPhase.done .success
        ∧ ph ≠ CallPhase.done .duplicateTyped
        ∧ ph ≠ CallPhase.done .duplicateUntyped
        ∧ (isDone ph = true → ph = CallPhase.done .conflictError) := by
  have hp0 : (initRace n).present = false := rfl
  have hok0 : ∀ ph ∈ (initRace n).calls, phaseOk ph := by
    intro ph hmem
    rw [List.eq_of_mem_replicate hmem]
    exact Or.inl rfl
  have hall : ∀ ph ∈ (runRace (initRace n) sched).calls, phaseOk ph :=
    runRace_ok sched (initRace n) hp0 hok0
  have hmain : ∀ ph ∈ (runRace (initRace n) sched).calls,
      ph ≠ CallPhase.done .success
      ∧ ph ≠ CallPhase.done .duplicateTyped
      ∧ ph ≠ CallPhase.done .duplicateUntyped
      ∧ (isDone ph = true → ph = CallPhase.done .conflictError) := by
    intro ph hmem
    rcases hall ph hmem with rfl | rfl | rfl | rfl
    · exact ⟨by decide, by decide, by decide, fun hd => absurd hd (by decide)⟩
    · exact ⟨by decide, by decide, by decide, fun hd => absurd hd (by decide)⟩
    · exact ⟨by decide, by decide, by decide, fun hd => absurd hd (by decide)⟩
    · exact ⟨by decide, by decide, by decide, fun _ => rfl⟩
  have hzero : successCount (runRace (initRace n) sched) = 0 := by
    unfold successCount
    rw [List.length_eq_zero]
    rw [List.filter_eq_nil_iff]
    intro ph hmem
    have hne := (hmain ph hmem).1
    simp [isSuccess]
    exact hne
  exact ⟨by rw [runRace_present]; rfl, hzero, hmain⟩

/-- Concrete run of `race_no_call_succeeds`: two calls run to completion
(sequentially as it happens — the schedule is irrelevant); both end with
the conflict error, neither with success or a duplicate error. -/
theorem race_no_call_succeeds_witness :
    successCount (runRace (initRace 2) [0, 0, 0, 1, 1, 1]) = 0
    ∧ CallPhase.done AddCallOutcome.conflictError
        ∈ (runRace (initRace 2) [0, 0, 0, 1, 1, 1]).calls
    ∧ CallPhase.done AddCallOutcome.conflictError ≠ CallPhase.done .success := by
  refine ⟨(race_no_call_succeeds 2 [0, 0, 0, 1, 1, 1]).2.1, by decide, ?_⟩
  exact ((race_no_call_succeeds 2 [0, 0, 0, 1, 1, 1]).2.2
    (CallPhase.done .conflictError) (by decide)).1

/-! ## Cache-key structure -/

theorem sep_cancel_left {c : Char} : ∀ (b1 b2 a1 a2 : List Char),
    b1 ++ c :: a1 = b2 ++ c :: a2 → c ∉ b1 → c ∉ b2 → b1 = b2 ∧ a1 = a2 := by
  intro b1
  induction b1 with
  | nil =>
      intro b2 a1 a2 heq h1 h2
      cases b2 with
      | nil => simpa using heq
      | cons y bs =>
          simp at heq
          exact absurd (heq.1 ▸ List.mem_cons_self y bs) h2
  | cons x bs ih =>
      intro b2 a1 a2 heq h1 h2
      cases b2 with
      | nil =>
          simp at heq
          exact absurd (heq.1 ▸ List.mem_cons_self x bs) h1
      | cons y bs2 =>
          simp only [List.cons_append, List.cons.injEq] at heq
          obtain ⟨rfl, heq2⟩ := heq
          have h3 := ih bs2 a1 a2 heq2 (fun hm => h1 (List.mem_cons_of_mem x hm))
            (fun hm => h2 (List.mem_cons_of_mem x hm))
          exact ⟨by rw [h3.1], h3.2⟩

theorem sep_cancel_right {c : Char} (a1 a2 b1 b2 : List Char)
    (heq : a1 ++ c :: b1 = a2 ++ c :: b2) (h1 : c ∉ b1) (h2 : c ∉ b2) :
    a1 = a2 ∧ b1 = b2 := by
  have hrev : b1.reverse ++ c :: a1.reverse = b2.reverse ++ c :: a2.reverse := by
    have h := congrArg List.reverse heq
    simpa [List.reverse_append] using h
  have h3 := sep_cancel_left b1.reverse b2.reverse a1.reverse a2.reverse hrev
    (by simpa using h1) (by simpa using h2)
  constructor
  · have := congrArg List.reverse h3.2
    simpa using this
  · have := congrArg List.reverse h3.1
    simpa using this

theorem getListCacheKey_data_none (u : String) (p l : Nat) :
    (getListCacheKey u p l none).data =
      ("mylist:".data ++ u.data ++ ':' :: natChars p) ++ ':' :: natChars l := by
  simp [getListCacheKey, natToString, String.data_append]

theorem getListCacheKey_data_some (u : String) (p l : Nat) (t : ContentType) :
    (getListCacheKey u p l (some t)).data =
      (("mylist:".data ++ u.data ++ ':' :: natChars p) ++ ':' :: natChars l)
        ++ ':' :: (contentTypeName t).data := by
  simp [getListCacheKey, natToString, String.data_append]

theorem contentTypeName_no_colon (t : ContentType) : (':' : Char) ∉ (contentTypeName t).data := by
  cases t <;> decide

theorem contentTypeName_head_large (t : ContentType) :
    ∃ c, c ∈ (contentTypeName t).data ∧ 58 ≤ c.toNat := by
  cases t
  · exact ⟨'M', by decide, by decide⟩
  · exact ⟨'T', by decide, by decide⟩

/-- The cache key determines the user, page, limit and filter: the page and
limit segments are nonempty digit strings, the filter segment starts with a
letter, and the rightmost-separator parse of the key is therefore unique,
whatever characters (colons included) the `userId` contains. -/
theorem getListCacheKey_inj (u1 u2 : String) (p1 p2 l1 l2 : Nat)
    (ct1 ct2 : Option ContentType)
    (h : getListCacheKey u1 p1 l1 ct1 = getListCacheKey u2 p2 l2 ct2) :
    u1 = u2 ∧ p1 = p2 ∧ l1 = l2 ∧ ct1 = ct2 := by
  have hd := congrArg String.data h
  have hmix : ∀ (lv : Nat) (t : ContentType), natChars lv = (contentTypeName t).data → False := by
    intro lv t hc
    obtain ⟨ch, hmem, hbig⟩ := contentTypeName_head_large t
    rw [← hc] at hmem
    have := natChars_digits lv ch hmem
    omega
  have hstrip : ∀ (w1 w2 : List Char), "mylist:".data ++ u1.data ++ ':' :: w1
      = "mylist:".data ++ u2.data ++ ':' :: w2 → ':' ∉ w1 → ':' ∉ w2 →
      u1 = u2 ∧ w1 = w2 := by
    intro w1 w2 heq hw1 hw2
    have h4 := sep_cancel_right _ _ _ _ heq hw1 hw2
    refine ⟨?_, h4.2⟩
    have h5 := List.append_cancel_left (h4.1 : "mylist:".data ++ u1.data = _)
    cases u1 with
    | mk d1 =>
        cases u2 with
        | mk d2 =>
            have h6 : d1 = d2 := by simpa using h5
            rw [h6]
  cases ct1 with
  | none =>
      cases ct2 with
      | none =>
          rw [getListCacheKey_data_none, getListCacheKey_data_none] at hd
          have h4 := sep_cancel_right _ _ _ _ hd (natChars_no_colon l1) (natChars_no_colon l2)
          have h5 := hstrip _ _ h4.1 (natChars_no_colon p1) (natChars_no_colon p2)
          exact ⟨h5.1, natChars_inj _ _ h5.2, natChars_inj _ _ h4.2, rfl⟩
      | some t2 =>
          rw [getListCacheKey_data_none, getListCacheKey_data_some] at hd
          have h4 := sep_cancel_right _ _ _ _ hd (natChars_no_colon l1)
            (contentTypeName_no_colon t2)
          exact absurd h4.2 (fun hc => hmix l1 t2 hc)
  | some t1 =>
      cases ct2 with
      | none =>
          rw [getListCacheKey_data_some, getListCacheKey_data_none] at hd
          have h4 := sep_cancel_right _ _ _ _ hd (contentTypeName_no_colon t1)
            (natChars_no_colon l2)
          exact absurd h4.2.symm (fun hc => hmix l2 t1 hc)
      | some t2 =>
          rw [getListCacheKey_data_some, getListCacheKey_data_some] at hd
          have h4 := sep_cancel_right _ _ _ _ hd (contentTypeName_no_colon t1)
            (contentTypeName_no_colon t2)
          have ht : t1 = t2 := by
            have hcc := h4.2
            cases t1 <;> cases t2 <;>
              first
              | rfl
              | exact absurd hcc (by decide)
          have h5 := sep_cancel_right _ _ _ _ h4.1 (natChars_no_colon l1)
            (natChars_no_colon l2)
          have h6 := hstrip _ _ h5.1 (natChars_no_colon p1) (natChars_no_colon p2)
          exact ⟨h6.1, natChars_inj _ _ h6.2, natChars_inj _ _ h5.2, by rw [ht]⟩

/-! ## Claim C7 -/

theorem getUserCachePattern_literal (u : String) :
    (getUserCachePattern u).data.dropLast = "mylist:".data ++ u.data ++ [':'] := by
  have h : (getUserCachePattern u).data
      = ("mylist:".data ++ u.data ++ [':']) ++ ['*'] := by
    simp [getUserCachePattern, String.data_append]
  rw [h, List.dropLast_concat]

/-! ## The invalidation regex

For a regex-literal `userId` the compiled pattern is the literal
`mylist:<userId>:` followed by `.\x2a`, and the unanchored `test` succeeds
exactly when that literal occurs as a substring of the key.  The lemmas
below prove that equivalence through the compiler and the matcher. -/

theorem replaceStarChars_no_star : ∀ (l r : List Char), (∀ c ∈ l, c ≠ '*') →
    replaceStarChars (l ++ r) = l ++ replaceStarChars r := by
  intro l
  induction l with
  | nil => intro r _; rfl
  | cons c cs ih =>
      intro r h
      have hc : ¬ c = '*' := h c (List.mem_cons_self c cs)
      have h1 : replaceStarChars ((c :: cs) ++ r) = c :: replaceStarChars (cs ++ r) := by
        rw [List.cons_append]
        simp only [replaceStarChars, if_neg hc]
      rw [h1, ih r (fun d hd => h d (List.mem_cons_of_mem c hd)), List.cons_append]

theorem parseRx_lit_cons (c : Char) (h : isRegexSyntaxChar c = false)
    (rest : List Char) (acc : List RPiece) (tag : Nat) :
    parseRx (c :: rest) acc tag = parseRx rest (mkLitPiece c :: acc) 1 := by
  have h1 : ¬ c = '.' := by rintro rfl; exact absurd h (by decide)
  have h2 : ¬ c = '*' := by rintro rfl; exact absurd h (by decide)
  have h3 : ¬ c = '+' := by rintro rfl; exact absurd h (by decide)
  have h4 : ¬ c = '?' := by rintro rfl; exact absurd h (by decide)
  simp only [parseRx, if_neg h1, if_neg h2, if_neg h3, if_neg h4, h, Bool.false_eq_true,
    if_false, mkLitPiece]

theorem parseRx_pattern (lit : List Char) (h : ∀ c ∈ lit, isRegexSyntaxChar c = false) :
    ∀ (acc : List RPiece) (tag : Nat),
      parseRx (lit ++ ['.', '*']) acc tag
        = some (acc.reverse ++ lit.map mkLitPiece ++ [RPiece.star RAtom.anyChar]) := by
  induction lit with
  | nil =>
      intro acc tag
      have hstep : parseRx (([] : List Char) ++ ['.', '*']) acc tag
          = some ((RPiece.star RAtom.anyChar :: acc).reverse) := rfl
      rw [hstep]
      simp
  | cons c cs ih =>
      intro acc tag
      rw [List.cons_append, parseRx_lit_cons c (h c (List.mem_cons_self c cs))]
      rw [ih (fun d hd => h d (List.mem_cons_of_mem c hd)) (mkLitPiece c :: acc) 1]
      simp

theorem matchPre_nil_pieces (fuel : Nat) (cs : List Char) (h : 1 ≤ fuel) :
    matchPre fuel [] cs = true := by
  cases fuel with
  | zero => omega
  | succ f => rfl

theorem atomMatch_lit (c d : Char) : atomMatch (RAtom.lit c) d = true ↔ c = d := by
  simp [atomMatch]

theorem matchPre_lits_dotstar (lit : List Char) :
    ∀ (cs : List Char) (fuel : Nat), lit.length + 2 ≤ fuel →
      (matchPre fuel (lit.map mkLitPiece ++ [RPiece.star RAtom.anyChar]) cs = true
        ↔ lit <+: cs) := by
  induction lit with
  | nil =>
      intro cs fuel hf
      obtain ⟨f, rfl⟩ : ∃ f, fuel = f + 1 := ⟨fuel - 1, by omega⟩
      simp only [List.map_nil, List.nil_append]
      constructor
      · intro _
        exact List.nil_prefix
      · intro _
        cases cs with
        | nil =>
            show (matchPre f [] [] || false) = true
            rw [matchPre_nil_pieces f [] (by omega)]
            rfl
        | cons d ds =>
            show (matchPre f [] (d :: ds)
              || (atomMatch RAtom.anyChar d
                  && matchPre f [RPiece.star RAtom.anyChar] ds)) = true
            rw [matchPre_nil_pieces f (d :: ds) (by omega)]
            rfl
  | cons x xs ih =>
      intro cs fuel hf
      obtain ⟨f, rfl⟩ : ∃ f, fuel = f + 1 := ⟨fuel - 1, by omega⟩
      cases cs with
      | nil =>
          constructor
          · intro hm
            rw [show matchPre (f + 1)
                ((x :: xs).map mkLitPiece ++ [RPiece.star RAtom.anyChar]) []
                = false from rfl] at hm
            exact absurd hm (by decide)
          · intro hp
            rw [List.prefix_nil] at hp
            exact absurd hp (List.cons_ne_nil x xs)
      | cons d ds =>
          rw [show matchPre (f + 1)
              ((x :: xs).map mkLitPiece ++ [RPiece.star RAtom.anyChar]) (d :: ds)
              = (atomMatch (RAtom.lit x) d
                  && matchPre f (xs.map mkLitPiece ++ [RPiece.star RAtom.anyChar]) ds)
              from rfl]
          rw [Bool.and_eq_true, atomMatch_lit,
            ih ds f (by simp only [List.length_cons] at hf; omega)]
          exact List.cons_prefix_cons.symm

theorem mem_suffixesOf (l : List Char) : ∀ s, s ∈ suffixesOf l ↔ s <:+ l := by
  induction l with
  | nil =>
      intro s
      simp [suffixesOf, List.suffix_nil]
  | cons c cs ih =>
      intro s
      constructor
      · intro hs
        rcases List.mem_cons.mp (by simpa [suffixesOf] using hs) with rfl | hs2
        · exact List.suffix_refl _
        · exact ((ih s).mp hs2).trans (List.suffix_cons c cs)
      · intro hs
        rcases List.suffix_cons_iff.mp hs with rfl | hs2
        · simp [suffixesOf]
        · simp only [suffixesOf, List.mem_cons]
          exact Or.inr ((ih s).mpr hs2)

theorem rxTest_lits_dotstar (lit k : List Char) :
    rxTest (lit.map mkLitPiece ++ [RPiece.star RAtom.anyChar]) k = true ↔ lit <:+: k := by
  unfold rxTest
  rw [List.any_eq_true]
  have hfuel : lit.length + 2
      ≤ (lit.map mkLitPiece ++ [RPiece.star RAtom.anyChar]).length + k.length + 1 := by
    simp only [List.length_append, List.length_map, List.length_singleton]
    omega
  constructor
  · rintro ⟨s, hs, hm⟩
    have hsuf : s <:+ k := (mem_suffixesOf k s).mp hs
    have hpre : lit <+: s := (matchPre_lits_dotstar lit s _ hfuel).mp hm
    exact List.infix_iff_prefix_suffix.mpr ⟨s, hpre, hsuf⟩
  · intro hinf
    obtain ⟨s, hpre, hsuf⟩ := List.infix_iff_prefix_suffix.mp hinf
    exact ⟨s, (mem_suffixesOf k s).mpr hsuf, (matchPre_lits_dotstar lit s _ hfuel).mpr hpre⟩

theorem mylist_prefix_chars : ∀ c ∈ "mylist:".data, isRegexSyntaxChar c = false := by
  intro c hc
  have h7 : "mylist:".data = ['m', 'y', 'l', 'i', 's', 't', ':'] := rfl
  rw [h7] at hc
  fin_cases hc <;> decide

theorem regexSafe_chars (u : String) (hu : regexSafe u = true) :
    ∀ c ∈ u.data, isRegexSyntaxChar c = false := by
  intro c hc
  have := List.all_eq_true.mp hu c hc
  simpa using this

theorem patternLit_chars (u : String) (hu : regexSafe u = true) :
    ∀ c ∈ "mylist:".data ++ u.data ++ [':'], isRegexSyntaxChar c = false := by
  intro c hc
  rcases List.mem_append.mp hc with hc2 | hc2
  · rcases List.mem_append.mp hc2 with hc3 | hc3
    · exact mylist_prefix_chars c hc3
    · exact regexSafe_chars u hu c hc3
  · have hcc : c = ':' := by simpa using hc2
    rw [hcc]
    decide

theorem getUserCachePattern_data (u : String) :
    (getUserCachePattern u).data = ("mylist:".data ++ u.data ++ [':']) ++ ['*'] := by
  simp [getUserCachePattern, String.data_append]

/-- For a regex-literal userId, the compiled invalidation behaves exactly
as the intended glob: a key is dropped iff it contains the literal
`mylist:<userId>:` as a substring. -/
theorem deletePattern_safe_eq (u : String) (hu : regexSafe u = true) (c : Cache) :
    deletePattern c (getUserCachePattern u)
      = fun k => if (getUserCachePattern u).data.dropLast <:+: k.data then none else c k := by
  have hlc := patternLit_chars u hu
  have hns : ∀ ch ∈ "mylist:".data ++ u.data ++ [':'], ch ≠ '*' := by
    intro ch hch heq
    have hs := hlc ch hch
    rw [heq] at hs
    exact absurd hs (by decide)
  have hrepl : replaceStarChars (getUserCachePattern u).data
      = ("mylist:".data ++ u.data ++ [':']) ++ ['.', '*'] := by
    rw [getUserCachePattern_data, replaceStarChars_no_star _ _ hns]
    rfl
  have hparse : parseRx (replaceStarChars (getUserCachePattern u).data) [] 0
      = some (("mylist:".data ++ u.data ++ [':']).map mkLitPiece
          ++ [RPiece.star RAtom.anyChar]) := by
    rw [hrepl]
    have hp := parseRx_pattern ("mylist:".data ++ u.data ++ [':']) hlc [] 0
    simpa using hp
  have hdp : deletePattern c (getUserCachePattern u)
      = fun k => if rxTest (("mylist:".data ++ u.data ++ [':']).map mkLitPiece
          ++ [RPiece.star RAtom.anyChar]) k.data then none else c k := by
    unfold deletePattern
    rw [hparse]
  rw [hdp]
  funext k
  rw [getUserCachePattern_literal]
  by_cases hinf : ("mylist:".data ++ u.data ++ [':']) <:+: k.data
  · rw [if_pos ((rxTest_lits_dotstar _ _).mpr hinf), if_pos hinf]
  · have hnt : ¬ (rxTest (("mylist:".data ++ u.data ++ [':']).map mkLitPiece
        ++ [RPiece.star RAtom.anyChar]) k.data = true) := fun ht =>
      hinf ((rxTest_lits_dotstar _ _).mp ht)
    rw [if_neg hnt, if_neg hinf]

/-- Whatever the pattern, the compiled invalidation only ever removes
entries: a surviving entry was already in the cache. -/
theorem deletePattern_subset (c : Cache) (pat k : String) (v : PaginatedMyListResponse)
    (h : deletePattern c pat k = some v) : c k = some v := by
  unfold deletePattern at h
  cases hp : parseRx (replaceStarChars pat.data) [] 0 with
  | none =>
      rw [hp] at h
      exact h
  | some r =>
      rw [hp] at h
      dsimp only at h
      split at h
      · exact absurd h (by simp)
      · exact h

/-- Every cache key of a user is wiped by that user's invalidation: the
pattern's literal is a prefix of the key. -/
theorem pattern_matches_own_key (u : String) (p l : Nat) (ct : Option ContentType) :
    (getUserCachePattern u).data.dropLast <:+: (getListCacheKey u p l ct).data := by
  rw [getUserCachePattern_literal]
  cases ct with
  | none =>
      refine ⟨[], natChars p ++ ':' :: natChars l, ?_⟩
      rw [getListCacheKey_data_none]
      simp
  | some t =>
      refine ⟨[], natChars p ++ ':' :: natChars l ++ ':' :: (contentTypeName t).data, ?_⟩
      rw [getListCacheKey_data_some]
      simp

theorem invalidateUserList_own_key (c : Cache) (u : String) (hu : regexSafe u = true)
    (p l : Nat) (ct : Option ContentType) :
    invalidateUserList false c u (getListCacheKey u p l ct) = none := by
  simp only [invalidateUserList, Bool.false_eq_true, if_false]
  rw [deletePattern_safe_eq u hu c]
  simp [pattern_matches_own_key u p l ct]

theorem invalidateUserList_subset (c : Cache) (u k : String) (v : PaginatedMyListResponse)
    (h : invalidateUserList false c u k = some v) : c k = some v := by
  simp only [invalidateUserList, Bool.false_eq_true, if_false] at h
  exact deletePattern_subset c _ k v h

theorem getItemsPaginated_frame (st1 st2 : ListStore) (u : String) (p l : Nat)
    (h : st1 u = st2 u) : getItemsPaginated st1 u p l = getItemsPaginated st2 u p l := by
  unfold getItemsPaginated
  rw [h]

theorem buildListResponse_frame (env : Env) (st1 st2 : ListStore) (u : String)
    (p l : Nat) (ct : Option ContentType) (h : st1 u = st2 u) :
    buildListResponse env st1 u p l ct = buildListResponse env st2 u p l ct := by
  unfold buildListResponse
  rw [getItemsPaginated_frame st1 st2 u p l h]

/-- The add as the database executes it never touches the store or the
cache: every branch errors, and the exception aborts the call before the
invalidation step. -/
theorem addToMyListReal_state (env : Env) (st : ListStore) (c : Cache)
    (u cid : String) (ctt : ContentType) :
    (addToMyListReal env st c u cid ctt).store = st
    ∧ (addToMyListReal env st c u cid ctt).cache = c := by
  cases hu : env.userExists u <;>
    cases hc : contentExists env.db cid ctt <;>
    cases hi : itemExists st u cid <;>
    constructor <;>
    simp [addToMyListReal, addItemMongo, hu, hc, hi]

theorem removeFromMyList_cases (st : ListStore) (c : Cache)
    (u cid : String) (now : Nat) (invFail : Bool) :
    ((removeFromMyList st c u cid now invFail).store = st
      ∧ (removeFromMyList st c u cid now invFail).cache = c)
    ∨ (∃ doc, (removeFromMyList st c u cid now invFail).store = storeSet st u doc
        ∧ (removeFromMyList st c u cid now invFail).cache
            = invalidateUserList invFail c u) := by
  cases hst : st u with
  | none =>
      left
      constructor <;> simp [removeFromMyList, removeItem, hst]
  | some doc =>
      right
      refine ⟨{ doc with items := doc.items.filter (fun it => !(it.contentId == cid)), updatedAt := now }, ?_, ?_⟩ <;>
        simp [removeFromMyList, removeItem_of_doc st u cid now doc hst]

theorem coherent_empty (env : Env) (st : ListStore) :
    Coherent env { store := st, cache := emptyCache } := by
  intro u p l ct v h
  simp [emptyCache] at h

theorem coherent_of_mutation (env : Env) (s : SysState) (st2 : ListStore) (u : String)
    (doc : MyListDoc) (husafe : regexSafe u = true) (h : Coherent env s)
    (hst : st2 = storeSet s.store u doc) :
    Coherent env { store := st2, cache := invalidateUserList false s.cache u } := by
  intro u0 p0 l0 ct0 v hv
  dsimp only at hv ⊢
  have hcv := invalidateUserList_subset s.cache u _ v hv
  have hold := h u0 p0 l0 ct0 v hcv
  by_cases hu : u0 = u
  · subst hu
    rw [invalidateUserList_own_key s.cache u0 husafe] at hv
    exact absurd hv (by simp)
  · rw [hold]
    apply buildListResponse_frame
    rw [hst]
    exact (storeSet_other s.store u u0 doc hu).symm

theorem coherent_applyOpReal (env : Env) (s : SysState) (op : Op)
    (husafe : regexSafe (opUserId op) = true) (h : Coherent env s) :
    Coherent env (applyOpReal env s op) := by
  cases op with
  | add u cid ctt now =>
      intro u0 p0 l0 ct0 v hv
      simp only [applyOpReal] at hv ⊢
      rw [(addToMyListReal_state env s.store s.cache u cid ctt).2] at hv
      rw [(addToMyListReal_state env s.store s.cache u cid ctt).1]
      exact h u0 p0 l0 ct0 v hv
  | remove u cid now =>
      rcases removeFromMyList_cases s.store s.cache u cid now false with
        ⟨hst, hc⟩ | ⟨doc, hst, hc⟩
      · intro u0 p0 l0 ct0 v hv
        simp only [applyOpReal] at hv ⊢
        rw [hc] at hv
        rw [hst]
        exact h u0 p0 l0 ct0 v hv
      · intro u0 p0 l0 ct0 v hv
        simp only [applyOpReal] at hv ⊢
        rw [hc] at hv
        rw [hst]
        exact coherent_of_mutation env s _ u doc husafe h rfl u0 p0 l0 ct0 v hv
  | getList u q =>
      intro u0 p0 l0 ct0 v hv
      simp only [applyOpReal] at hv ⊢
      cases hcc : s.cache (getListCacheKey u (jsOr q.page 1) (jsOr q.limit 10) q.contentType) with
      | some cached =>
          simp only [getMyList, getCachedList, Bool.false_eq_true, if_false, hcc] at hv
          exact h u0 p0 l0 ct0 v hv
      | none =>
          simp only [getMyList, getCachedList, setCachedList, cacheSet, Bool.false_eq_true,
            if_false, hcc] at hv
          split at hv
          · next hkey =>
              obtain ⟨hu, hp, hl, hct⟩ := getListCacheKey_inj _ _ _ _ _ _ _ _ hkey
              have hveq : v = buildListResponse env s.store u (jsOr q.page 1)
                  (jsOr q.limit 10) q.contentType := by
                have := hv
                simpa using this.symm
              rw [hveq, hu, hp, hl, hct]
          · exact h u0 p0 l0 ct0 v hv

theorem coherent_runOpsReal (env : Env) (ops : List Op) :
    ∀ (s : SysState), (∀ op ∈ ops, regexSafe (opUserId op) = true) → Coherent env s →
      Coherent env (runOpsReal env s ops) := by
  induction ops with
  | nil => intro s _ h; exact h
  | cons op rest ih =>
      intro s hsafe h
      exact ih (applyOpReal env s op)
        (fun op2 hop2 => hsafe op2 (List.mem_cons_of_mem op hop2))
        (coherent_applyOpReal env s op (hsafe op (List.mem_cons_self op rest)) h)

/-- In a coherent state the response of `getMyList` is always the pure
cache-miss computation over the current store. -/
theorem getMyList_coherent_response (env : Env) (s : SysState) (u : String)
    (q : ListMyItemsQuery) (h : Coherent env s) :
    (getMyList env s.store s.cache u q false false).response
      = buildListResponse env s.store u (jsOr q.page 1) (jsOr q.limit 10) q.contentType := by
  cases hcc : s.cache (getListCacheKey u (jsOr q.page 1) (jsOr q.limit 10) q.contentType) with
  | none => simp [getMyList, getCachedList, hcc]
  | some v =>
      simp [getMyList, getCachedList, hcc]
      exact h u _ _ _ v hcc

/-- Claim C7 fails on the code: cache transparency breaks for userIds
containing regex syntax characters, because `InMemoryCacheService` builds
its invalidation regex from the *raw* userId.  For the user `a+` the
compiled pattern `mylist:a+:.\x2a` requires one or more `a`s followed by a
colon, so it never matches the user's own keys (which spell the literal
`a+`): the remove's invalidation evicts nothing, and the next `GetList`
returns the stale cached page — `total = 2` from before the removal —
while the same call with the cache disabled recomputes `total = 1`. -/
theorem cache_stale_after_metachar_invalidation :
    regexSafe "a+" = false
    ∧ (getMyList env0 sysMeta.store sysMeta.cache "a+" qDefault
        false false).response.pagination.total = 2
    ∧ (getMyList env0 sysMeta.store emptyCache "a+" qDefault
        false false).response.pagination.total = 1
    ∧ (getMyList env0 sysMeta.store sysMeta.cache "a+" qDefault false false).response
        ≠ (getMyList env0 sysMeta.store emptyCache "a+" qDefault false false).response := by
  decide

/-- Claim C7 as amended: for *regex-literal* userIds — none of the
characters of any userId appearing in the history carries regex meaning —
the cache is transparent: start with an empty cache and any store, run any
sequence of engine operations, then ask for any user's list with any
query; the response with the cache active equals the response with the
cache layer disabled (every read a miss, every write discarded, modelled
by the empty cache).  For userIds with regex syntax characters the
guarantee fails: the raw userId is interpolated into the invalidation
regex, so the pattern can miss the user's own keys (`a+`) or fail to
compile at all (`a[`, the error being absorbed), leaving stale entries a
later `GetList` returns. -/
theorem getList_cache_transparent_literal_users (env : Env) (st0 : ListStore)
    (ops : List Op) (u : String) (q : ListMyItemsQuery)
    (hsafe : ∀ op ∈ ops, regexSafe (opUserId op) = true) :
    (getMyList env (runOpsReal env { store := st0, cache := emptyCache } ops).store
        (runOpsReal env { store := st0, cache := emptyCache } ops).cache u q
        false false).response
      = (getMyList env (runOpsReal env { store := st0, cache := emptyCache } ops).store
          emptyCache u q false false).response := by
  have hco := coherent_runOpsReal env ops { store := st0, cache := emptyCache }
    hsafe (coherent_empty env st0)
  rw [getMyList_coherent_response env _ u q hco]
  simp [getMyList, getCachedList, emptyCache]

/-- Concrete run of `getList_cache_transparent_literal_users`: fill the
cache for `u1`, remove the item (all userIds regex-literal), then read —
the cached and cache-disabled responses agree. -/
theorem getList_cache_transparent_literal_users_witness :
    (∀ op ∈ ([.getList "u1" qDefault, .remove "u1" "m1" 5] : List Op),
        regexSafe (opUserId op) = true)
    ∧ (getMyList env0 (runOpsReal env0 { store := stWithM1, cache := emptyCache }
          [.getList "u1" qDefault, .remove "u1" "m1" 5]).store
        (runOpsReal env0 { store := stWithM1, cache := emptyCache }
          [.getList "u1" qDefault, .remove "u1" "m1" 5]).cache "u1" qDefault
          false false).response
      = (getMyList env0 (runOpsReal env0 { store := stWithM1, cache := emptyCache }
          [.getList "u1" qDefault, .remove "u1" "m1" 5]).store
          emptyCache "u1" qDefault false false).response := by
  refine ⟨by decide, ?_⟩
  exact getList_cache_transparent_literal_users env0 stWithM1
    [.getList "u1" qDefault, .remove "u1" "m1" 5] "u1" qDefault (by decide)

/-! ## Claim C10 -/

theorem applyOpReal_add_store_frame (env : Env) (s : SysState) (u cid : String)
    (ctt : ContentType) (now : Nat) (u2 : String) :
    (applyOpReal env s (Op.add u cid ctt now)).store u2 = s.store u2 := by
  simp only [applyOpReal]
  rw [(addToMyListReal_state env s.store s.cache u cid ctt).1]

theorem applyOpReal_remove_store_frame (env : Env) (s : SysState) (u cid : String)
    (now : Nat) (u2 : String) (hne : u2 ≠ u) :
    (applyOpReal env s (Op.remove u cid now)).store u2 = s.store u2 := by
  simp only [applyOpReal]
  rcases removeFromMyList_cases s.store s.cache u cid now false with
    ⟨hst, _⟩ | ⟨doc, hst, _⟩
  · rw [hst]
  · rw [hst]
    exact storeSet_other s.store u u2 doc hne

/-- Claim C10 fails as stated: cache invalidation deletes every key the
unanchored pattern regex matches, i.e. — for regex-literal userIds — every
key *containing* the literal `mylist:<userId>:`, not only the caller's
keys.  With users `a` and `a:1`, the key of `a:1`'s first page starts with
`mylist:a:`, so a mutation by `a` evicts `a:1`'s cached page. -/
theorem invalidate_cross_user_eviction :
    ("a" : String) ≠ "a:1"
    ∧ (cacheSet emptyCache (getListCacheKey "a:1" 1 10 none) respEmpty)
        (getListCacheKey "a:1" 1 10 none) = some respEmpty
    ∧ invalidateUserList false
        (cacheSet emptyCache (getListCacheKey "a:1" 1 10 none) respEmpty) "a"
        (getListCacheKey "a:1" 1 10 none) = none := by
  decide

/-- Claim C10 as amended: a mutation by `u` never touches another user's
stored aggregate (store operations are keyed by `userId`; an add, as the
database executes it, touches no aggregate at all), and for a
*regex-literal* `u` the invalidation evicts every one of `u`'s own cached
pages and touches a cache entry only when its key contains the literal
`mylist:<u>:` — which another user's key can contain, e.g. with
colon-bearing userIds (see the counterexample), though such an entry is
evicted, never altered.  In every state reachable by regex-literal users,
another user's subsequent `GetList` response is unchanged by `u`'s
mutation.  (For a `u` with regex metacharacters the eviction guarantees
fail in their own way — `a+` misses its own keys, `a[` fails to compile,
`a.b` can match keys without the literal — which is the C7 defect, not a
cross-user store leak: stores stay isolated and entries are only ever
evicted, never altered.) -/
theorem cross_user_isolation_literal_users (env : Env) (st : ListStore) (c : Cache)
    (u cid u2 : String) (ctt : ContentType) (now : Nat) (invFail : Bool)
    (p l : Nat) (ct : Option ContentType) (k : String)
    (st0 : ListStore) (ops : List Op) (q : ListMyItemsQuery)
    (hne : u2 ≠ u) (hu : regexSafe u = true)
    (hsafe : ∀ op ∈ ops, regexSafe (opUserId op) = true) :
    (addToMyListReal env st c u cid ctt).store u2 = st u2
    ∧ (removeFromMyList st c u cid now invFail).store u2 = st u2
    ∧ invalidateUserList false c u (getListCacheKey u p l ct) = none
    ∧ (¬ ((getUserCachePattern u).data.dropLast <:+: k.data) →
        invalidateUserList false c u k = c k)
    ∧ (getMyList env (applyOpReal env (runOpsReal env { store := st0, cache := emptyCache } ops)
          (Op.add u cid ctt now)).store
        (applyOpReal env (runOpsReal env { store := st0, cache := emptyCache } ops)
          (Op.add u cid ctt now)).cache u2 q false false).response
      = (getMyList env (runOpsReal env { store := st0, cache := emptyCache } ops).store
          (runOpsReal env { store := st0, cache := emptyCache } ops).cache u2 q
          false false).response
    ∧ (getMyList env (applyOpReal env (runOpsReal env { store := st0, cache := emptyCache } ops)
          (Op.remove u cid now)).store
        (applyOpReal env (runOpsReal env { store := st0, cache := emptyCache } ops)
          (Op.remove u cid now)).cache u2 q false false).response
      = (getMyList env (runOpsReal env { store := st0, cache := emptyCache } ops).store
          (runOpsReal env { store := st0, cache := emptyCache } ops).cache u2 q
          false false).response := by
  have hco : Coherent env (runOpsReal env { store := st0, cache := emptyCache } ops) :=
    coherent_runOpsReal env ops _ hsafe (coherent_empty env st0)
  refine ⟨?_, ?_, invalidateUserList_own_key c u hu p l ct, ?_, ?_, ?_⟩
  · rw [(addToMyListReal_state env st c u cid ctt).1]
  · rcases removeFromMyList_cases st c u cid now invFail with ⟨hst, _⟩ | ⟨doc, hst, _⟩
    · rw [hst]
    · rw [hst]
      exact storeSet_other st u u2 doc hne
  · intro hnk
    simp only [invalidateUserList, Bool.false_eq_true, if_false]
    rw [deletePattern_safe_eq u hu c]
    simp [hnk]
  · have hco2 := coherent_applyOpReal env _ (Op.add u cid ctt now) hu hco
    rw [getMyList_coherent_response env _ u2 q hco2,
      getMyList_coherent_response env _ u2 q hco]
    exact buildListResponse_frame env _ _ u2 _ _ _
      (applyOpReal_add_store_frame env _ u cid ctt now u2)
  · have hco2 := coherent_applyOpReal env _ (Op.remove u cid now) hu hco
    rw [getMyList_coherent_response env _ u2 q hco2,
      getMyList_coherent_response env _ u2 q hco]
    exact buildListResponse_frame env _ _ u2 _ _ _
      (applyOpReal_remove_store_frame env _ u cid now u2 hne)

/-- Concrete run of `cross_user_isolation_literal_users`: a mutation by
`u2` leaves `u1`'s aggregate in place, and invalidation wipes the caller's
own page key. -/
theorem cross_user_isolation_literal_users_witness :
    (addToMyListReal env0 stWithM1 emptyCache "u2" "m1" ContentType.Movie).store "u1"
      = stWithM1 "u1"
    ∧ invalidateUserList false emptyCache "u2" (getListCacheKey "u2" 1 10 none) = none := by
  constructor
  · exact (cross_user_isolation_literal_users env0 stWithM1 emptyCache "u2" "m1" "u1"
      ContentType.Movie 5 false 1 10 none "x" st0 []
      { page := none, limit := none, contentType := none }
      (by decide) (by decide) (fun op hop => absurd hop (List.not_mem_nil op))).1
  · exact (cross_user_isolation_literal_users env0 stWithM1 emptyCache "u2" "m1" "u1"
      ContentType.Movie 5 false 1 10 none "x" st0 []
      { page := none, limit := none, contentType := none }
      (by decide) (by decide) (fun op hop => absurd hop (List.not_mem_nil op))).2.2.1

end MyListSpec
